import Mathlib

/-
Verification of the composition engine in `src/manifest/manifest.py`
(interpolation, deep merge, normalization, service and stack rendering).

Python values parsed from YAML are modelled by the nested inductive `Doc`:
mappings are association lists in insertion order (Python dicts have unique
keys and preserve insertion order), sequences are lists, scalars are
string / integer / boolean / null.  Dictionary keys are hashable scalars,
modelled by `PKey`.  File access and YAML parsing are external collaborators
and are passed in as parameters.
-/

/-- Hashable scalar values, used as dictionary keys. -/
inductive PKey where
  | s : String → PKey
  | i : Int → PKey
  | b : Bool → PKey
  | null : PKey
deriving DecidableEq

/-- YAML-shaped document values: scalars, sequences and mappings. -/
inductive Doc where
  | str : String → Doc
  | int : Int → Doc
  | bool : Bool → Doc
  | null : Doc
  | seq : List Doc → Doc
  | map : List (PKey × Doc) → Doc

/-- Entry list of a mapping. -/
abbrev Entries := List (PKey × Doc)

/-- Error outcomes of the engine, mirroring the Python exceptions
(`ValueError` for a missing interpolation variable is split off as
`missingVariable` since the claims distinguish it). -/
inductive RErr where
  | missingVariable (name : String)
  | typeError
  | fileNotFound (path : String)
  | keyError (key : String)
  | valueError (msg : String)
deriving DecidableEq

mutual

/-- Structural size of a document (used as a recursion-depth bound for the
merge: `dsize` strictly exceeds the nesting depth of a value). -/
def dsize : Doc → Nat
  | .seq l => 1 + dsizeL l
  | .map m => 1 + dsizeE m
  | _ => 1

/-- Combined size of the elements of a sequence. -/
def dsizeL : List Doc → Nat
  | [] => 0
  | d :: t => dsize d + dsizeL t

/-- Combined size of the values of a mapping. -/
def dsizeE : List (PKey × Doc) → Nat
  | [] => 0
  | p :: t => dsize p.2 + dsizeE t

end

/-- Python dict assignment `d[k] = v`: replace the value at the first
occurrence of `k`, keeping its position, or append a new entry. -/
def setKey : Entries → PKey → Doc → Entries
  | [], k, v => [(k, v)]
  | (k', v') :: t, k, v =>
    if k' = k then (k, v) :: t else (k', v') :: setKey t k v

/-- Python dict-literal splat `{**a, **b}`: start from `a` and assign each
entry of `b` in order. -/
def dictUnion (a b : Entries) : Entries :=
  b.foldl (fun acc p => setKey acc p.1 p.2) a

/-- Opening brace character (used by the container repr). -/
def braceL : Char := Char.ofNat 123

/-- Closing brace character. -/
def braceR : Char := Char.ofNat 125

/-- Single quote character (used by the container repr). -/
def quoteC : Char := Char.ofNat 39

/-- Python `str()` of a dictionary key (keys are scalars, so no recursion). -/
def pyKeyStr : PKey → String
  | .s s => s
  | .i n => toString n
  | .b b => if b then "True" else "False"
  | .null => "None"

/-- Python `repr()` of a dictionary key as it appears inside a container. -/
def pyKeyRepr : PKey → String
  | .s s => quoteC.toString ++ s ++ quoteC.toString
  | .i n => toString n
  | .b b => if b then "True" else "False"
  | .null => "None"

mutual

/-- Python `repr()` of a value (string escaping inside quotes is not
reproduced; no theorem depends on container text). -/
def pyRepr : Doc → String
  | .str s => quoteC.toString ++ s ++ quoteC.toString
  | .int i => toString i
  | .bool b => if b then "True" else "False"
  | .null => "None"
  | .seq l => "[" ++ String.intercalate ", " (pyReprL l) ++ "]"
  | .map m => braceL.toString ++ String.intercalate ", " (pyReprE m) ++
      braceR.toString

/-- Reprs of the elements of a sequence. -/
def pyReprL : List Doc → List String
  | [] => []
  | d :: t => pyRepr d :: pyReprL t

/-- Reprs of the entries of a mapping, in `key: value` form. -/
def pyReprE : List (PKey × Doc) → List String
  | [] => []
  | p :: t => (pyKeyRepr p.1 ++ ": " ++ pyRepr p.2) :: pyReprE t

end

/-- Python `str()` of a value: scalars print bare, containers print as their
`repr`. -/
def pyStr : Doc → String
  | .str s => s
  | .int i => toString i
  | .bool b => if b then "True" else "False"
  | .null => "None"
  | .seq l => pyRepr (.seq l)
  | .map m => pyRepr (.map m)

/-- Keys that use set-union merge instead of list-replace
(`UNION_KEYS` in the source). -/
def UNION_KEYS : List String := ["networks", "depends_on"]

/-- Keys that extend lists instead of replacing (`EXTEND_KEYS` in the source). -/
def EXTEND_KEYS : List String := ["endpoints"]

/-- Python `key in {..strings..}`: membership only holds for string keys. -/
def keyInSet (k : PKey) (s : List String) : Bool :=
  match k with
  | .s n => s.contains n
  | _ => false

/-- Normalization of a mapping in `normalize_to_dict`:
`{str(k): str(v) for k, v in value.items()}`. -/
def normEntries (m : Entries) : Entries :=
  m.map (fun p => (PKey.s (pyKeyStr p.1), Doc.str (pyStr p.2)))

/-- Python `s.split("=", 1)` when `"=" in s`, else `none`. -/
def splitFirstEq (s : String) : Option (String × String) :=
  match s.splitOn "=" with
  | [] => none
  | [_] => none
  | h :: t => some (h, String.intercalate "=" t)

/-- `normalize_to_dict` from the source: convert list-style
`environment` / `labels` values to dict form; mappings normalize their keys
and values with `str()`; `None` becomes the empty dict; a list entry without
`=` and a non-container value raise `ValueError`. -/
def normalize_to_dict (value : Doc) (key_name : PKey) : Except RErr Entries :=
  match value with
  | .null => .ok []
  | .map m => .ok (normEntries m)
  | .seq l =>
    l.foldlM (fun acc item =>
      match splitFirstEq (pyStr item) with
      | some kv => .ok (setKey acc (PKey.s kv.1) (Doc.str kv.2))
      | none => .error (.valueError (pyStr item))) []
  | _ => .error (.valueError (pyKeyStr key_name))

/-- Hashability of a value: Python lists and dicts are unhashable, scalars
are hashable. -/
def Doc.hashable : Doc → Bool
  | .seq _ => false
  | .map _ => false
  | _ => true

/-- View of a hashable scalar as a `PKey`. -/
def scalarOf : Doc → Option PKey
  | .str s => some (.s s)
  | .int n => some (.i n)
  | .bool b => some (.b b)
  | .null => some .null
  | _ => none

/-- Embedding of a scalar back into `Doc`. -/
def keyDoc : PKey → Doc
  | .s s => .str s
  | .i n => .int n
  | .b b => .bool b
  | .null => .null

/-- Set union `list(set(l1) | set(l2))` for hashable elements.  Python set
iteration order is unspecified; the model fixes a canonical order (the
claims about union merges constrain only membership and duplicate-freeness). -/
def unionElems (l1 l2 : List Doc) : List Doc :=
  (((l1 ++ l2).filterMap scalarOf).dedup).map keyDoc

/-- Body of one iteration of the merge loop in `deep_merge`, for a key
present in both mappings, parameterized by the recursive merge `dm`:
dict-dict recurses (after `environment` / `labels` normalization, which on
dict inputs is `normEntries`), list-list dispatches on the key policy
(union for `UNION_KEYS` raising `TypeError` on unhashable elements, append
for `EXTEND_KEYS`, replace otherwise), anything else replaces wholesale. -/
def mergeValue (dm : Entries → Entries → Except RErr Entries)
    (key : PKey) (b v : Doc) : Except RErr Doc :=
  match b, v with
  | .map m1, .map m2 =>
    if keyInSet key ["environment", "labels"] then
      (dm (normEntries m1) (normEntries m2)).map Doc.map
    else
      (dm m1 m2).map Doc.map
  | .seq l1, .seq l2 =>
    if keyInSet key UNION_KEYS then
      if (l1 ++ l2).all Doc.hashable then
        .ok (.seq (unionElems l1 l2))
      else
        .error .typeError
    else if keyInSet key EXTEND_KEYS then
      .ok (.seq (l1 ++ l2))
    else
      .ok (.seq l2)
  | _, _ => .ok v

/-- Merge pass over the base entries: each base entry keeps its key and
position; a key also present in `overlay` gets the merged value `f k b v`.
Together with appending the overlay-only entries this is `deep_merge`'s
loop over `overlay.items()`: since dict keys are unique, `result[key]` at
the time key `k` is visited is still `base[k]`. -/
def mergeEntries (f : PKey → Doc → Doc → Except RErr Doc)
    (overlay : Entries) : Entries → Except RErr Entries
  | [] => Except.ok []
  | (k, b) :: rest =>
    (match List.lookup k overlay with
     | none => Except.ok b
     | some ov => f k b ov).bind
      (fun v => (mergeEntries f overlay rest).map (fun tail => (k, v) :: tail))

/-- Fuelled recursive merge.  The fuel only bounds the dict-in-dict nesting
depth the recursion can descend through; `deep_merge` supplies fuel larger
than any reachable depth, so the zero case is never hit. -/
def dmN : Nat → Entries → Entries → Except RErr Entries
  | 0, base, _ => Except.ok base
  | n+1, base, overlay =>
    (mergeEntries (mergeValue (dmN n)) overlay base).map
      (fun merged =>
        merged ++ overlay.filter (fun q => (List.lookup q.1 base).isNone))

/-- `deep_merge` from the source: recursively merge `overlay` into `base`,
returning a new mapping.  `dsizeE base + dsizeE overlay + 1` strictly
exceeds the map-nesting depth of `base`, which bounds the recursion depth. -/
def deep_merge (base overlay : Entries) : Except RErr Entries :=
  dmN (dsizeE base + dsizeE overlay + 1) base overlay

/-- Unfolding `deep_merge` one step exposes the loop body. -/
theorem deep_merge_unfold (base overlay : Entries) :
    deep_merge base overlay =
      (mergeEntries (mergeValue (dmN (dsizeE base + dsizeE overlay)))
        overlay base).map
        (fun merged =>
          merged ++ overlay.filter (fun q => (List.lookup q.1 base).isNone)) :=
  rfl

example : deep_merge [(PKey.s "a", Doc.int 1)] [(PKey.s "a", Doc.int 2)] =
    .ok [(PKey.s "a", Doc.int 2)] := rfl

example : deep_merge [(PKey.s "networks", Doc.seq [Doc.str "x", Doc.str "y"])]
    [(PKey.s "networks", Doc.seq [Doc.str "y", Doc.str "z"])] =
    .ok [(PKey.s "networks", Doc.seq [Doc.str "x", Doc.str "y", Doc.str "z"])] := rfl

example : deep_merge [(PKey.s "networks", Doc.seq [Doc.map []])]
    [(PKey.s "networks", Doc.seq [Doc.map []])] = .error .typeError := rfl

example : deep_merge
    [(PKey.s "environment", Doc.map [(PKey.s "A", Doc.int 1)])]
    [(PKey.s "environment", Doc.map [(PKey.s "B", Doc.int 2)])] =
    .ok [(PKey.s "environment",
      Doc.map [(PKey.s "A", Doc.str "1"), (PKey.s "B", Doc.str "2")])] := rfl

/-- Code-point ranges (inclusive, sorted, disjoint) of the characters
Python's `str.isalnum()` accepts, tabulated from the Unicode database. -/
def alnumRanges : List (Nat × Nat) := [
  (48, 57), (65, 90), (97, 122), (170, 170), (178, 179), (181, 181),
  (185, 186), (188, 190), (192, 214), (216, 246), (248, 705), (710, 721),
  (736, 740), (748, 748), (750, 750), (880, 884), (886, 887), (890, 893),
  (895, 895), (902, 902), (904, 906), (908, 908), (910, 929), (931, 1013),
  (1015, 1153), (1162, 1327), (1329, 1366), (1369, 1369), (1376, 1416), (1488, 1514),
  (1519, 1522), (1568, 1610), (1632, 1641), (1646, 1647), (1649, 1747), (1749, 1749),
  (1765, 1766), (1774, 1788), (1791, 1791), (1808, 1808), (1810, 1839), (1869, 1957),
  (1969, 1969), (1984, 2026), (2036, 2037), (2042, 2042), (2048, 2069), (2074, 2074),
  (2084, 2084), (2088, 2088), (2112, 2136), (2144, 2154), (2160, 2183), (2185, 2190),
  (2208, 2249), (2308, 2361), (2365, 2365), (2384, 2384), (2392, 2401), (2406, 2415),
  (2417, 2432), (2437, 2444), (2447, 2448), (2451, 2472), (2474, 2480), (2482, 2482),
  (2486, 2489), (2493, 2493), (2510, 2510), (2524, 2525), (2527, 2529), (2534, 2545),
  (2548, 2553), (2556, 2556), (2565, 2570), (2575, 2576), (2579, 2600), (2602, 2608),
  (2610, 2611), (2613, 2614), (2616, 2617), (2649, 2652), (2654, 2654), (2662, 2671),
  (2674, 2676), (2693, 2701), (2703, 2705), (2707, 2728), (2730, 2736), (2738, 2739),
  (2741, 2745), (2749, 2749), (2768, 2768), (2784, 2785), (2790, 2799), (2809, 2809),
  (2821, 2828), (2831, 2832), (2835, 2856), (2858, 2864), (2866, 2867), (2869, 2873),
  (2877, 2877), (2908, 2909), (2911, 2913), (2918, 2927), (2929, 2935), (2947, 2947),
  (2949, 2954), (2958, 2960), (2962, 2965), (2969, 2970), (2972, 2972), (2974, 2975),
  (2979, 2980), (2984, 2986), (2990, 3001), (3024, 3024), (3046, 3058), (3077, 3084),
  (3086, 3088), (3090, 3112), (3114, 3129), (3133, 3133), (3160, 3162), (3165, 3165),
  (3168, 3169), (3174, 3183), (3192, 3198), (3200, 3200), (3205, 3212), (3214, 3216),
  (3218, 3240), (3242, 3251), (3253, 3257), (3261, 3261), (3293, 3294), (3296, 3297),
  (3302, 3311), (3313, 3314), (3332, 3340), (3342, 3344), (3346, 3386), (3389, 3389),
  (3406, 3406), (3412, 3414), (3416, 3425), (3430, 3448), (3450, 3455), (3461, 3478),
  (3482, 3505), (3507, 3515), (3517, 3517), (3520, 3526), (3558, 3567), (3585, 3632),
  (3634, 3635), (3648, 3654), (3664, 3673), (3713, 3714), (3716, 3716), (3718, 3722),
  (3724, 3747), (3749, 3749), (3751, 3760), (3762, 3763), (3773, 3773), (3776, 3780),
  (3782, 3782), (3792, 3801), (3804, 3807), (3840, 3840), (3872, 3891), (3904, 3911),
  (3913, 3948), (3976, 3980), (4096, 4138), (4159, 4169), (4176, 4181), (4186, 4189),
  (4193, 4193), (4197, 4198), (4206, 4208), (4213, 4225), (4238, 4238), (4240, 4249),
  (4256, 4293), (4295, 4295), (4301, 4301), (4304, 4346), (4348, 4680), (4682, 4685),
  (4688, 4694), (4696, 4696), (4698, 4701), (4704, 4744), (4746, 4749), (4752, 4784),
  (4786, 4789), (4792, 4798), (4800, 4800), (4802, 4805), (4808, 4822), (4824, 4880),
  (4882, 4885), (4888, 4954), (4969, 4988), (4992, 5007), (5024, 5109), (5112, 5117),
  (5121, 5740), (5743, 5759), (5761, 5786), (5792, 5866), (5870, 5880), (5888, 5905),
  (5919, 5937), (5952, 5969), (5984, 5996), (5998, 6000), (6016, 6067), (6103, 6103),
  (6108, 6108), (6112, 6121), (6128, 6137), (6160, 6169), (6176, 6264), (6272, 6276),
  (6279, 6312), (6314, 6314), (6320, 6389), (6400, 6430), (6470, 6509), (6512, 6516),
  (6528, 6571), (6576, 6601), (6608, 6618), (6656, 6678), (6688, 6740), (6784, 6793),
  (6800, 6809), (6823, 6823), (6917, 6963), (6981, 6988), (6992, 7001), (7043, 7072),
  (7086, 7141), (7168, 7203), (7232, 7241), (7245, 7293), (7296, 7304), (7312, 7354),
  (7357, 7359), (7401, 7404), (7406, 7411), (7413, 7414), (7418, 7418), (7424, 7615),
  (7680, 7957), (7960, 7965), (7968, 8005), (8008, 8013), (8016, 8023), (8025, 8025),
  (8027, 8027), (8029, 8029), (8031, 8061), (8064, 8116), (8118, 8124), (8126, 8126),
  (8130, 8132), (8134, 8140), (8144, 8147), (8150, 8155), (8160, 8172), (8178, 8180),
  (8182, 8188), (8304, 8305), (8308, 8313), (8319, 8329), (8336, 8348), (8450, 8450),
  (8455, 8455), (8458, 8467), (8469, 8469), (8473, 8477), (8484, 8484), (8486, 8486),
  (8488, 8488), (8490, 8493), (8495, 8505), (8508, 8511), (8517, 8521), (8526, 8526),
  (8528, 8585), (9312, 9371), (9450, 9471), (10102, 10131), (11264, 11492), (11499, 11502),
  (11506, 11507), (11517, 11517), (11520, 11557), (11559, 11559), (11565, 11565), (11568, 11623),
  (11631, 11631), (11648, 11670), (11680, 11686), (11688, 11694), (11696, 11702), (11704, 11710),
  (11712, 11718), (11720, 11726), (11728, 11734), (11736, 11742), (11823, 11823), (12293, 12295),
  (12321, 12329), (12337, 12341), (12344, 12348), (12353, 12438), (12445, 12447), (12449, 12538),
  (12540, 12543), (12549, 12591), (12593, 12686), (12690, 12693), (12704, 12735), (12784, 12799),
  (12832, 12841), (12872, 12879), (12881, 12895), (12928, 12937), (12977, 12991), (13312, 19903),
  (19968, 42124), (42192, 42237), (42240, 42508), (42512, 42539), (42560, 42606), (42623, 42653),
  (42656, 42735), (42775, 42783), (42786, 42888), (42891, 42954), (42960, 42961), (42963, 42963),
  (42965, 42969), (42994, 43009), (43011, 43013), (43015, 43018), (43020, 43042), (43056, 43061),
  (43072, 43123), (43138, 43187), (43216, 43225), (43250, 43255), (43259, 43259), (43261, 43262),
  (43264, 43301), (43312, 43334), (43360, 43388), (43396, 43442), (43471, 43481), (43488, 43492),
  (43494, 43518), (43520, 43560), (43584, 43586), (43588, 43595), (43600, 43609), (43616, 43638),
  (43642, 43642), (43646, 43695), (43697, 43697), (43701, 43702), (43705, 43709), (43712, 43712),
  (43714, 43714), (43739, 43741), (43744, 43754), (43762, 43764), (43777, 43782), (43785, 43790),
  (43793, 43798), (43808, 43814), (43816, 43822), (43824, 43866), (43868, 43881), (43888, 44002),
  (44016, 44025), (44032, 55203), (55216, 55238), (55243, 55291), (63744, 64109), (64112, 64217),
  (64256, 64262), (64275, 64279), (64285, 64285), (64287, 64296), (64298, 64310), (64312, 64316),
  (64318, 64318), (64320, 64321), (64323, 64324), (64326, 64433), (64467, 64829), (64848, 64911),
  (64914, 64967), (65008, 65019), (65136, 65140), (65142, 65276), (65296, 65305), (65313, 65338),
  (65345, 65370), (65382, 65470), (65474, 65479), (65482, 65487), (65490, 65495), (65498, 65500),
  (65536, 65547), (65549, 65574), (65576, 65594), (65596, 65597), (65599, 65613), (65616, 65629),
  (65664, 65786), (65799, 65843), (65856, 65912), (65930, 65931), (66176, 66204), (66208, 66256),
  (66273, 66299), (66304, 66339), (66349, 66378), (66384, 66421), (66432, 66461), (66464, 66499),
  (66504, 66511), (66513, 66517), (66560, 66717), (66720, 66729), (66736, 66771), (66776, 66811),
  (66816, 66855), (66864, 66915), (66928, 66938), (66940, 66954), (66956, 66962), (66964, 66965),
  (66967, 66977), (66979, 66993), (66995, 67001), (67003, 67004), (67072, 67382), (67392, 67413),
  (67424, 67431), (67456, 67461), (67463, 67504), (67506, 67514), (67584, 67589), (67592, 67592),
  (67594, 67637), (67639, 67640), (67644, 67644), (67647, 67669), (67672, 67702), (67705, 67742),
  (67751, 67759), (67808, 67826), (67828, 67829), (67835, 67867), (67872, 67897), (67968, 68023),
  (68028, 68047), (68050, 68096), (68112, 68115), (68117, 68119), (68121, 68149), (68160, 68168),
  (68192, 68222), (68224, 68255), (68288, 68295), (68297, 68324), (68331, 68335), (68352, 68405),
  (68416, 68437), (68440, 68466), (68472, 68497), (68521, 68527), (68608, 68680), (68736, 68786),
  (68800, 68850), (68858, 68899), (68912, 68921), (69216, 69246), (69248, 69289), (69296, 69297),
  (69376, 69415), (69424, 69445), (69457, 69460), (69488, 69505), (69552, 69579), (69600, 69622),
  (69635, 69687), (69714, 69743), (69745, 69746), (69749, 69749), (69763, 69807), (69840, 69864),
  (69872, 69881), (69891, 69926), (69942, 69951), (69956, 69956), (69959, 69959), (69968, 70002),
  (70006, 70006), (70019, 70066), (70081, 70084), (70096, 70106), (70108, 70108), (70113, 70132),
  (70144, 70161), (70163, 70187), (70272, 70278), (70280, 70280), (70282, 70285), (70287, 70301),
  (70303, 70312), (70320, 70366), (70384, 70393), (70405, 70412), (70415, 70416), (70419, 70440),
  (70442, 70448), (70450, 70451), (70453, 70457), (70461, 70461), (70480, 70480), (70493, 70497),
  (70656, 70708), (70727, 70730), (70736, 70745), (70751, 70753), (70784, 70831), (70852, 70853),
  (70855, 70855), (70864, 70873), (71040, 71086), (71128, 71131), (71168, 71215), (71236, 71236),
  (71248, 71257), (71296, 71338), (71352, 71352), (71360, 71369), (71424, 71450), (71472, 71483),
  (71488, 71494), (71680, 71723), (71840, 71922), (71935, 71942), (71945, 71945), (71948, 71955),
  (71957, 71958), (71960, 71983), (71999, 71999), (72001, 72001), (72016, 72025), (72096, 72103),
  (72106, 72144), (72161, 72161), (72163, 72163), (72192, 72192), (72203, 72242), (72250, 72250),
  (72272, 72272), (72284, 72329), (72349, 72349), (72368, 72440), (72704, 72712), (72714, 72750),
  (72768, 72768), (72784, 72812), (72818, 72847), (72960, 72966), (72968, 72969), (72971, 73008),
  (73030, 73030), (73040, 73049), (73056, 73061), (73063, 73064), (73066, 73097), (73112, 73112),
  (73120, 73129), (73440, 73458), (73648, 73648), (73664, 73684), (73728, 74649), (74752, 74862),
  (74880, 75075), (77712, 77808), (77824, 78894), (82944, 83526), (92160, 92728), (92736, 92766),
  (92768, 92777), (92784, 92862), (92864, 92873), (92880, 92909), (92928, 92975), (92992, 92995),
  (93008, 93017), (93019, 93025), (93027, 93047), (93053, 93071), (93760, 93846), (93952, 94026),
  (94032, 94032), (94099, 94111), (94176, 94177), (94179, 94179), (94208, 100343), (100352, 101589),
  (101632, 101640), (110576, 110579), (110581, 110587), (110589, 110590), (110592, 110882), (110928, 110930),
  (110948, 110951), (110960, 111355), (113664, 113770), (113776, 113788), (113792, 113800), (113808, 113817),
  (119520, 119539), (119648, 119672), (119808, 119892), (119894, 119964), (119966, 119967), (119970, 119970),
  (119973, 119974), (119977, 119980), (119982, 119993), (119995, 119995), (119997, 120003), (120005, 120069),
  (120071, 120074), (120077, 120084), (120086, 120092), (120094, 120121), (120123, 120126), (120128, 120132),
  (120134, 120134), (120138, 120144), (120146, 120485), (120488, 120512), (120514, 120538), (120540, 120570),
  (120572, 120596), (120598, 120628), (120630, 120654), (120656, 120686), (120688, 120712), (120714, 120744),
  (120746, 120770), (120772, 120779), (120782, 120831), (122624, 122654), (123136, 123180), (123191, 123197),
  (123200, 123209), (123214, 123214), (123536, 123565), (123584, 123627), (123632, 123641), (124896, 124902),
  (124904, 124907), (124909, 124910), (124912, 124926), (124928, 125124), (125127, 125135), (125184, 125251),
  (125259, 125259), (125264, 125273), (126065, 126123), (126125, 126127), (126129, 126132), (126209, 126253),
  (126255, 126269), (126464, 126467), (126469, 126495), (126497, 126498), (126500, 126500), (126503, 126503),
  (126505, 126514), (126516, 126519), (126521, 126521), (126523, 126523), (126530, 126530), (126535, 126535),
  (126537, 126537), (126539, 126539), (126541, 126543), (126545, 126546), (126548, 126548), (126551, 126551),
  (126553, 126553), (126555, 126555), (126557, 126557), (126559, 126559), (126561, 126562), (126564, 126564),
  (126567, 126570), (126572, 126578), (126580, 126583), (126585, 126588), (126590, 126590), (126592, 126601),
  (126603, 126619), (126625, 126627), (126629, 126633), (126635, 126651), (127232, 127244), (130032, 130041),
  (131072, 173791), (173824, 177976), (177984, 178205), (178208, 183969), (183984, 191456), (194560, 195101),
  (196608, 201546)]

/-- Membership of a code point in a sorted list of inclusive ranges. -/
def inRanges (n : Nat) : List (Nat × Nat) → Bool
  | [] => false
  | r :: t => if n < r.1 then false else if n ≤ r.2 then true else inRanges n t

/-- Word characters of the placeholder pattern `\$\{(\w+)\}`: the source
compiles the regex on a str, so `\w` is the Unicode word class — any
character Python's `str.isalnum()` accepts, or an underscore. -/
def isWordChar (c : Char) : Bool := inRanges c.toNat alnumRanges || c = '_'

/-- Lookup of a placeholder identifier in the variable mapping
(`key not in variables` in the source compares the matched string key). -/
def varLookup (vars : Entries) (w : String) : Option Doc :=
  List.lookup (PKey.s w) vars

/-- Scanner for `pattern.sub(replacer, template)` with
`pattern = \$\{(\w+)\}`: walks the text left to right; at `"${" ++ word ++
"}"` with `word` nonempty it substitutes `str(variables[word])` or fails
with the missing identifier; at any position where no match starts, one
character passes through.  The fuel decreases once per consumed character,
so `length + 1` is always sufficient. -/
def iGo (vars : Entries) : Nat → List Char → Except RErr (List Char)
  | 0, cs => Except.ok cs
  | _+1, [] => Except.ok []
  | n+1, c :: cs =>
    if c = '$' then
      match cs with
      | c2 :: cs2 =>
        if c2 = braceL then
          let word := cs2.takeWhile isWordChar
          match cs2.dropWhile isWordChar with
          | r :: rs =>
            if r = braceR ∧ word ≠ [] then
              match varLookup vars (String.mk word) with
              | none => Except.error (.missingVariable (String.mk word))
              | some v => (iGo vars n rs).map (fun out => (pyStr v).data ++ out)
            else
              (iGo vars n cs).map (fun out => c :: out)
          | [] => (iGo vars n cs).map (fun out => c :: out)
        else
          (iGo vars n cs).map (fun out => c :: out)
      | [] => Except.ok [c]
    else
      (iGo vars n cs).map (fun out => c :: out)

/-- Identifiers of the placeholders the scanner matches, in scan order
(same traversal as `iGo`, without substitution). -/
def phN : Nat → List Char → List String
  | 0, _ => []
  | _+1, [] => []
  | n+1, c :: cs =>
    if c = '$' then
      match cs with
      | c2 :: cs2 =>
        if c2 = braceL then
          let word := cs2.takeWhile isWordChar
          match cs2.dropWhile isWordChar with
          | r :: rs =>
            if r = braceR ∧ word ≠ [] then String.mk word :: phN n rs
            else phN n cs
          | [] => phN n cs
        else phN n cs
      | [] => []
    else phN n cs

/-- `interpolate` from the source: replace `${var}` placeholders with
stringified values; raises on missing variables. -/
def interpolate (template : String) (vars : Entries) : Except RErr String :=
  (iGo vars (template.data.length + 1) template.data).map String.mk

/-- Placeholder identifiers contained in a template, in scan order. -/
def placeholders (template : String) : List String :=
  phN (template.data.length + 1) template.data

example : interpolate "${a}-${b}" [(PKey.s "a", Doc.str "1"), (PKey.s "b", Doc.str "2")] =
    .ok "1-2" := rfl

example : interpolate "${missing}" [] = .error (.missingVariable "missing") := rfl

example : placeholders "${a}-${b}" = ["a", "b"] := rfl

/-- Python truthiness on document values (`yaml.safe_load(...) or {}`). -/
def pyFalsy : Doc → Bool
  | .null => true
  | .str s => s.isEmpty
  | .int n => n = 0
  | .bool b => !b
  | .seq l => l.isEmpty
  | .map m => m.isEmpty

/-- `load_provision` from the source.  The provisions directory is the
external collaborator `fs` (file name to raw text) and YAML parsing is the
external collaborator `parse`; a missing file raises `FileNotFoundError`,
the text is interpolated, parsed, and a falsy parse becomes the empty
mapping (`or {}`). -/
def load_provision (fs : String → Option String) (parse : String → Except RErr Doc)
    (provision_name : String) (vars : Entries) : Except RErr Doc :=
  match fs (provision_name ++ ".yml") with
  | none => Except.error (.fileNotFound (provision_name ++ ".yml"))
  | some raw =>
    (interpolate raw vars).bind (fun interpolated =>
      (parse interpolated).map (fun d => if pyFalsy d then Doc.map [] else d))

/-- Python `for x in value`: sequences yield elements, strings yield
one-character strings, dicts yield keys, scalars raise `TypeError`. -/
def iterElems : Doc → Except RErr (List Doc)
  | .seq l => Except.ok l
  | .str s => Except.ok (s.data.map (fun c => Doc.str c.toString))
  | .map m => Except.ok (m.map (fun p => keyDoc p.1))
  | _ => Except.error .typeError

/-- Python `sub in s` for strings (`"=" in str(item)` style membership). -/
def strContains (s sub : String) : Bool :=
  (s.splitOn sub).length > 1

/-- One step of the output-merging loop in `render_service` /
`render_stack`: `if target in provision: outputs[target] =
deep_merge(outputs[target], provision[target])`.  Membership follows the
Python `in` operator on the provision value (dict keys, list elements,
substring for strings — where a hit would then fail to index — and
`TypeError` on scalars); a present non-dict target value makes `deep_merge`
raise (`overlay.items()` on a non-dict). -/
def merge_target (provision : Doc) (target : String) (cur : Entries) :
    Except RErr Entries :=
  match provision with
  | .map pm =>
    match List.lookup (PKey.s target) pm with
    | none => Except.ok cur
    | some (.map ov) => deep_merge cur ov
    | some _ => Except.error .typeError
  | .seq l =>
    if l.any (fun d => match d with | Doc.str s => s == target | _ => false) then
      Except.error .typeError
    else Except.ok cur
  | .str s =>
    if strContains s target then Except.error .typeError
    else Except.ok cur
  | _ => Except.error .typeError

/-- Accumulated output documents (`outputs = {"compose": {}, "traefik": {},
"gatus": {}}`). -/
structure Outputs where
  compose : Entries
  traefik : Entries
  gatus : Entries

/-- Initial empty output accumulators. -/
def emptyOutputs : Outputs := ⟨[], [], []⟩

/-- Merge a loaded provision's three target sections into the accumulated
outputs, in the fixed target order of the source. -/
def merge_targets (outs : Outputs) (provision : Doc) : Except RErr Outputs :=
  (merge_target provision "compose" outs.compose).bind (fun c =>
    (merge_target provision "traefik" outs.traefik).bind (fun t =>
      (merge_target provision "gatus" outs.gatus).map (fun g => ⟨c, t, g⟩)))

/-- Provision loop of `render_service`: load each named provision with the
service variables and merge its outputs, in listed order. -/
def apply_provisions (fs : String → Option String)
    (parse : String → Except RErr Doc) (vars : Entries) :
    Outputs → List Doc → Except RErr Outputs
  | outs, [] => Except.ok outs
  | outs, p :: rest =>
    (load_provision fs parse (pyStr p) vars).bind (fun provision =>
      (merge_targets outs provision).bind (fun outs' =>
        apply_provisions fs parse vars outs' rest))

/-- Sidecar loop of `render_service`: for each entry of the manifest's
`services` mapping build `{"name": name, "sidecar": sidecar_type,
**sidecar_config, **config}`, load the provision named after the sidecar
type, and merge its outputs. -/
def apply_sidecars (fs : String → Option String)
    (parse : String → Except RErr Doc) (name : Doc) (config : Entries) :
    Outputs → Entries → Except RErr Outputs
  | outs, [] => Except.ok outs
  | outs, (sk, sconf) :: rest =>
    (match sconf with
     | .map sc => Except.ok sc
     | _ => Except.error RErr.typeError).bind (fun sc =>
      let svars := dictUnion (dictUnion
        [(PKey.s "name", name), (PKey.s "sidecar", keyDoc sk)] sc) config
      (load_provision fs parse (pyKeyStr sk) svars).bind (fun provision =>
        (merge_targets outs provision).bind (fun outs' =>
          apply_sidecars fs parse name config outs' rest)))

/-- `render_service` from the source: extract `name` (`KeyError` if absent),
`config` (defaults to the empty mapping; a present non-mapping value makes
the `{"name": name, **config}` splat raise `TypeError`), build the variable
mapping, return the wrapped `compose` payload immediately in raw mode, and
otherwise run the provision loop followed by the sidecar loop. -/
def render_service (fs : String → Option String)
    (parse : String → Except RErr Doc) (manifest : Doc) : Except RErr Outputs :=
  (match manifest with
   | .map m => Except.ok m
   | _ => Except.error RErr.typeError).bind (fun m =>
    (match List.lookup (PKey.s "name") m with
     | some v => Except.ok v
     | none => Except.error (RErr.keyError "name")).bind (fun name =>
      (match List.lookup (PKey.s "config") m with
       | none => Except.ok ([] : Entries)
       | some (.map c) => Except.ok c
       | some _ => Except.error RErr.typeError).bind (fun config =>
        let provisions := (List.lookup (PKey.s "provisions") m).getD (Doc.seq [])
        let vars := dictUnion [(PKey.s "name", name)] config
        if (match List.lookup (PKey.s "type") m with
            | some (Doc.str t) => t == "raw"
            | _ => false) then
          Except.ok
            { compose :=
                match List.lookup (PKey.s "compose") m with
                | some c => [(PKey.s "services", c)]
                | none => []
              traefik := []
              gatus := [] }
        else
          (iterElems provisions).bind (fun pnames =>
            (apply_provisions fs parse vars emptyOutputs pnames).bind (fun outs =>
              (match (List.lookup (PKey.s "services") m).getD (Doc.map []) with
               | .map sm => Except.ok sm
               | _ => Except.error RErr.typeError).bind (fun sidecars =>
                apply_sidecars fs parse name config outs sidecars))))))

/-- Include loop of `render_stack`: resolve each included service file
against the services directory (`svcFs`), fail with `FileNotFoundError` if
missing, parse and render it, and merge each of its three outputs into the
running accumulation. -/
def apply_includes (fs : String → Option String)
    (parse : String → Except RErr Doc) (svcFs : String → Option String) :
    Outputs → List Doc → Except RErr Outputs
  | outs, [] => Except.ok outs
  | outs, f :: rest =>
    (match svcFs (pyStr f) with
     | some txt => Except.ok txt
     | none => Except.error (RErr.fileNotFound (pyStr f))).bind (fun txt =>
      (parse txt).bind (fun manifest =>
        (render_service fs parse manifest).bind (fun souts =>
          (deep_merge outs.compose souts.compose).bind (fun c =>
            (deep_merge outs.traefik souts.traefik).bind (fun t =>
              (deep_merge outs.gatus souts.gatus).bind (fun g =>
                apply_includes fs parse svcFs ⟨c, t, g⟩ rest))))))

/-- Accumulation phase of `render_stack`: render and merge every included
service, before the stack-level network overwrite. -/
def render_stack_core (fs : String → Option String)
    (parse : String → Except RErr Doc) (svcFs : String → Option String)
    (stack : Entries) : Except RErr Outputs :=
  (iterElems ((List.lookup (PKey.s "include") stack).getD (Doc.seq []))).bind
    (fun files => apply_includes fs parse svcFs emptyOutputs files)

/-- `render_stack` from the source, on an already parsed stack document
(reading and parsing the stack file is the external boundary): merge all
included services, then assign the stack-level `networks` value verbatim
into the `compose` output. -/
def render_stack (fs : String → Option String)
    (parse : String → Except RErr Doc) (svcFs : String → Option String)
    (stack : Doc) : Except RErr Outputs :=
  (match stack with
   | .map sm => Except.ok sm
   | _ => Except.error RErr.typeError).bind (fun s =>
    (render_stack_core fs parse svcFs s).map (fun (outs : Outputs) =>
      match List.lookup (PKey.s "networks") s with
      | some v => { outs with compose := setKey outs.compose (PKey.s "networks") v }
      | none => outs))

example : render_service (fun _ => none) (fun _ => Except.ok Doc.null)
    (Doc.map [(PKey.s "name", Doc.str "raw1"), (PKey.s "type", Doc.str "raw"),
      (PKey.s "compose", Doc.map [(PKey.s "raw1",
        Doc.map [(PKey.s "image", Doc.str "y")])])]) =
    Except.ok ⟨[(PKey.s "services", Doc.map [(PKey.s "raw1",
      Doc.map [(PKey.s "image", Doc.str "y")])])], [], []⟩ := rfl

example : render_stack (fun _ => none) (fun _ => Except.ok Doc.null) (fun _ => none)
    (Doc.map [(PKey.s "networks", Doc.map [(PKey.s "proxy", Doc.null)])]) =
    Except.ok ⟨[(PKey.s "networks", Doc.map [(PKey.s "proxy", Doc.null)])], [], []⟩ := rfl

@[simp] theorem exc_bind_ok {α β ε : Type} (a : α) (f : α → Except ε β) :
    (Except.ok a).bind f = f a := rfl

@[simp] theorem exc_bind_error {α β ε : Type} (e : ε) (f : α → Except ε β) :
    (Except.error e).bind f = Except.error e := rfl

@[simp] theorem exc_map_ok {α β ε : Type} (f : α → β) (a : α) :
    (Except.ok a : Except ε α).map f = Except.ok (f a) := rfl

@[simp] theorem exc_map_error {α β ε : Type} (f : α → β) (e : ε) :
    (Except.error e : Except ε α).map f = Except.error e := rfl

/-- Assigning a key always makes it readable with that value. -/
theorem lookup_setKey_self (l : Entries) (k : PKey) (v : Doc) :
    List.lookup k (setKey l k v) = some v := by
  induction l with
  | nil => simp [setKey, List.lookup]
  | cons p t ih =>
    obtain ⟨k', v'⟩ := p
    by_cases h : k' = k
    · subst h
      simp [setKey, List.lookup]
    · have hb : (k == k') = false := beq_eq_false_iff_ne.mpr (fun hk => h hk.symm)
      simp [setKey, if_neg h, List.lookup, hb, ih]

/-- C5: after `render_stack`, a stack-level `networks` entry is assigned
verbatim as the `networks` key of the final `compose` output, overriding
whatever the merged service outputs produced there, and the `traefik` and
`gatus` outputs are exactly the pre-assignment accumulations. -/
theorem stack_networks_overwrite (fs : String → Option String)
    (parse : String → Except RErr Doc) (svcFs : String → Option String)
    (s : Entries) (v : Doc) (O : Outputs)
    (hnet : List.lookup (PKey.s "networks") s = some v)
    (hrun : render_stack fs parse svcFs (Doc.map s) = Except.ok O) :
    List.lookup (PKey.s "networks") O.compose = some v ∧
    ∃ core : Outputs, render_stack_core fs parse svcFs s = Except.ok core ∧
      O.compose = setKey core.compose (PKey.s "networks") v ∧
      O.traefik = core.traefik ∧ O.gatus = core.gatus := by
  unfold render_stack at hrun
  rw [exc_bind_ok] at hrun
  cases hcore : render_stack_core fs parse svcFs s with
  | error e => rw [hcore, exc_map_error] at hrun; exact absurd hrun (by simp)
  | ok core =>
    rw [hcore, exc_map_ok, hnet] at hrun
    have hO : O = { core with compose := setKey core.compose (PKey.s "networks") v } := by
      cases hrun with
      | refl => rfl
    subst hO
    exact ⟨lookup_setKey_self _ _ _, core, rfl, rfl, rfl, rfl⟩

/-- C5 witness: a concrete stack whose descriptor carries a `networks`
mapping, instantiating `stack_networks_overwrite`. -/
theorem stack_networks_overwrite_witness :
    List.lookup (PKey.s "networks")
      (Outputs.compose ⟨[(PKey.s "networks", Doc.map [(PKey.s "proxy", Doc.null)])], [], []⟩) =
      some (Doc.map [(PKey.s "proxy", Doc.null)]) ∧
    ∃ core : Outputs,
      render_stack_core (fun _ => none) (fun _ => Except.ok Doc.null) (fun _ => none)
        [(PKey.s "networks", Doc.map [(PKey.s "proxy", Doc.null)])] = Except.ok core ∧
      Outputs.compose ⟨[(PKey.s "networks", Doc.map [(PKey.s "proxy", Doc.null)])], [], []⟩ =
        setKey core.compose (PKey.s "networks") (Doc.map [(PKey.s "proxy", Doc.null)]) ∧
      Outputs.traefik ⟨[(PKey.s "networks", Doc.map [(PKey.s "proxy", Doc.null)])], [], []⟩ =
        core.traefik ∧
      Outputs.gatus ⟨[(PKey.s "networks", Doc.map [(PKey.s "proxy", Doc.null)])], [], []⟩ =
        core.gatus :=
  stack_networks_overwrite (fun _ => none) (fun _ => Except.ok Doc.null) (fun _ => none)
    [(PKey.s "networks", Doc.map [(PKey.s "proxy", Doc.null)])]
    (Doc.map [(PKey.s "proxy", Doc.null)])
    ⟨[(PKey.s "networks", Doc.map [(PKey.s "proxy", Doc.null)])], [], []⟩ rfl rfl

/-- C6: for a manifest with a `name` and `type` equal to `"raw"` (and a
well-formed `config`, which the data model requires to be a mapping when
present), `render_service` bypasses all provision and sidecar processing and
returns the manifest's `compose` payload wrapped under a single `services`
key (or an empty mapping when there is no payload), with empty `traefik`
and `gatus` outputs, for every provision store and parser. -/
theorem raw_mode_bypasses (fs : String → Option String)
    (parse : String → Except RErr Doc) (m : Entries) (nm : Doc)
    (hname : List.lookup (PKey.s "name") m = some nm)
    (htype : List.lookup (PKey.s "type") m = some (Doc.str "raw"))
    (hconfig : ∀ c, List.lookup (PKey.s "config") m = some c → ∃ cm, c = Doc.map cm) :
    render_service fs parse (Doc.map m) =
      Except.ok { compose := (match List.lookup (PKey.s "compose") m with
                    | some c => [(PKey.s "services", c)]
                    | none => ([] : Entries)),
                  traefik := [], gatus := [] } := by
  unfold render_service
  rw [exc_bind_ok, hname, exc_bind_ok]
  cases hc : List.lookup (PKey.s "config") m with
  | none => rw [htype]; rfl
  | some c =>
    obtain ⟨cm, rfl⟩ := hconfig c hc
    rw [htype]
    rfl

/-- C6 witness: the spec's end-to-end raw example
`{name: raw1, type: raw, compose: {raw1: {image: y}}}`. -/
theorem raw_mode_bypasses_witness :
    render_service (fun _ => none) (fun _ => Except.ok Doc.null)
      (Doc.map [(PKey.s "name", Doc.str "raw1"), (PKey.s "type", Doc.str "raw"),
        (PKey.s "compose", Doc.map [(PKey.s "raw1",
          Doc.map [(PKey.s "image", Doc.str "y")])])]) =
      Except.ok { compose := (match List.lookup (PKey.s "compose")
                    [(PKey.s "name", Doc.str "raw1"), (PKey.s "type", Doc.str "raw"),
                      (PKey.s "compose", Doc.map [(PKey.s "raw1",
                        Doc.map [(PKey.s "image", Doc.str "y")])])] with
                    | some c => [(PKey.s "services", c)]
                    | none => ([] : Entries)),
                  traefik := [], gatus := [] } :=
  raw_mode_bypasses (fun _ => none) (fun _ => Except.ok Doc.null)
    [(PKey.s "name", Doc.str "raw1"), (PKey.s "type", Doc.str "raw"),
      (PKey.s "compose", Doc.map [(PKey.s "raw1", Doc.map [(PKey.s "image", Doc.str "y")])])]
    (Doc.str "raw1") rfl rfl (fun _ hc => nomatch hc)

/-- C10: merging a union key (`networks`) present as a sequence in both
mappings with an unhashable element (here a mapping) raises `TypeError`:
the set-union merge fails instead of producing a merged document. -/
theorem union_unhashable_type_error :
    deep_merge [(PKey.s "networks", Doc.seq [Doc.map []])]
      [(PKey.s "networks", Doc.seq [Doc.map []])] = Except.error RErr.typeError := rfl

/-- C1 counterexample: `deep_merge` is not associative.  With
`A = {k: {x: 1}}`, `B = {k: 0}`, `C = {k: {y: 2}}`, merging left first
collapses `k` to `C`'s value `{y: 2}`, while merging right first recurses
into `A`'s mapping and yields `{x: 1, y: 2}`. -/
theorem deep_merge_not_associative :
    ¬ ((deep_merge [(PKey.s "k", Doc.map [(PKey.s "x", Doc.int 1)])]
          [(PKey.s "k", Doc.int 0)]).bind
        (fun ab => deep_merge ab [(PKey.s "k", Doc.map [(PKey.s "y", Doc.int 2)])]) =
       (deep_merge [(PKey.s "k", Doc.int 0)]
          [(PKey.s "k", Doc.map [(PKey.s "y", Doc.int 2)])]).bind
        (fun bc => deep_merge [(PKey.s "k", Doc.map [(PKey.s "x", Doc.int 1)])] bc)) := by
  have h1 : (deep_merge [(PKey.s "k", Doc.map [(PKey.s "x", Doc.int 1)])]
        [(PKey.s "k", Doc.int 0)]).bind
      (fun ab => deep_merge ab [(PKey.s "k", Doc.map [(PKey.s "y", Doc.int 2)])]) =
      Except.ok [(PKey.s "k", Doc.map [(PKey.s "y", Doc.int 2)])] := rfl
  have h2 : (deep_merge [(PKey.s "k", Doc.int 0)]
        [(PKey.s "k", Doc.map [(PKey.s "y", Doc.int 2)])]).bind
      (fun bc => deep_merge [(PKey.s "k", Doc.map [(PKey.s "x", Doc.int 1)])] bc) =
      Except.ok [(PKey.s "k", Doc.map [(PKey.s "x", Doc.int 1), (PKey.s "y", Doc.int 2)])] := rfl
  rw [h1, h2]
  simp

/-- Classification of scalar values (strings, numbers, booleans, null). -/
def Doc.isScalar : Doc → Bool
  | .seq _ => false
  | .map _ => false
  | _ => true

/-- Lookup in an appended list finds a hit in the left part first. -/
theorem lookup_append_some {l1 l2 : Entries} {k : PKey} {v : Doc}
    (h : List.lookup k l1 = some v) : List.lookup k (l1 ++ l2) = some v := by
  induction l1 with
  | nil => simp [List.lookup] at h
  | cons p t ih =>
    cases hk : (k == p.1) with
    | true => simpa [List.lookup, hk] using by simpa [List.lookup, hk] using h
    | false =>
      simp only [List.cons_append, List.lookup, hk] at h ⊢
      exact ih h

/-- The merge pass sends the first entry at key `k` of the base to the
merged value prescribed by the lookup in the overlay. -/
theorem mergeEntries_lookup {f : PKey → Doc → Doc → Except RErr Doc}
    {overlay : Entries} {l r : Entries}
    (h : mergeEntries f overlay l = Except.ok r)
    {k : PKey} {b : Doc} (hb : List.lookup k l = some b) :
    ∃ v, (match List.lookup k overlay with
          | none => Except.ok b
          | some ov => f k b ov) = Except.ok v ∧ List.lookup k r = some v := by
  induction l generalizing r with
  | nil => simp [List.lookup] at hb
  | cons p t ih =>
    obtain ⟨k', b'⟩ := p
    rw [mergeEntries] at h
    cases hstep : (match List.lookup k' overlay with
                   | none => Except.ok b'
                   | some ov => f k' b' ov) with
    | error e => rw [hstep, exc_bind_error] at h; exact absurd h (by simp)
    | ok v' =>
      rw [hstep, exc_bind_ok] at h
      cases htail : mergeEntries f overlay t with
      | error e => rw [htail, exc_map_error] at h; exact absurd h (by simp)
      | ok rt =>
        rw [htail, exc_map_ok] at h
        have hr : r = (k', v') :: rt := by
          cases h with
          | refl => rfl
        subst hr
        cases hk : (k == k') with
        | true =>
          have hkk : k = k' := by simpa using hk
          subst hkk
          have hbb : b' = b := by simpa [List.lookup] using hb
          subst hbb
          exact ⟨v', hstep, by simp [List.lookup]⟩
        | false =>
          have hbt : List.lookup k t = some b := by
            simpa [List.lookup, hk] using hb
          obtain ⟨v, hv1, hv2⟩ := ih htail hbt
          exact ⟨v, hv1, by simpa [List.lookup, hk] using hv2⟩

/-- C3: for a key that is in neither `UNION_KEYS` nor `EXTEND_KEYS` and is
present in both mappings with scalar values, a successful `deep_merge`
carries the overlay's value at that key, replacing the base's value. -/
theorem scalar_overlay_wins (A B R : Entries) (k : PKey) (a b : Doc)
    (hA : List.lookup k A = some a) (hB : List.lookup k B = some b)
    (ha : a.isScalar = true) (hb : b.isScalar = true)
    (_hku : keyInSet k UNION_KEYS = false) (_hke : keyInSet k EXTEND_KEYS = false)
    (hmerge : deep_merge A B = Except.ok R) :
    List.lookup k R = some b := by
  rw [deep_merge_unfold] at hmerge
  cases hme : mergeEntries (mergeValue (dmN (dsizeE A + dsizeE B))) B A with
  | error e => rw [hme, exc_map_error] at hmerge; exact absurd hmerge (by simp)
  | ok merged =>
    rw [hme, exc_map_ok] at hmerge
    have hR : R = merged ++ B.filter (fun q => (List.lookup q.1 A).isNone) := by
      cases hmerge with
      | refl => rfl
    subst hR
    obtain ⟨v, hv1, hv2⟩ := mergeEntries_lookup hme hA
    rw [hB] at hv1
    have hvb : v = b := by
      cases a <;> simp [Doc.isScalar] at ha <;> simp [mergeValue] at hv1 <;>
        exact hv1.symm
    subst hvb
    exact lookup_append_some hv2

/-- C3 witness: `{a: 1}` merged with `{a: 2}` yields `2` at `a`. -/
theorem scalar_overlay_wins_witness :
    List.lookup (PKey.s "a") [(PKey.s "a", Doc.int 2)] = some (Doc.int 2) :=
  scalar_overlay_wins [(PKey.s "a", Doc.int 1)] [(PKey.s "a", Doc.int 2)]
    [(PKey.s "a", Doc.int 2)] (PKey.s "a") (Doc.int 1) (Doc.int 2)
    rfl rfl rfl rfl rfl rfl rfl

/-- Recovering a scalar from its key view is inverse to `scalarOf`. -/
theorem scalarOf_keyDoc {d : Doc} {pk : PKey} (h : scalarOf d = some pk) :
    keyDoc pk = d := by
  cases d <;> simp [scalarOf] at h <;> subst h <;> rfl

/-- The key view of an embedded scalar is itself. -/
theorem keyDoc_scalarOf (pk : PKey) : scalarOf (keyDoc pk) = some pk := by
  cases pk <;> rfl

/-- The scalar embedding is injective. -/
theorem keyDoc_injective : Function.Injective keyDoc := by
  intro a b h
  have ha := keyDoc_scalarOf a
  rw [h, keyDoc_scalarOf] at ha
  exact (Option.some_inj.mp ha).symm

/-- Every hashable value has a key view. -/
theorem hashable_scalarOf {d : Doc} (h : d.hashable = true) :
    ∃ pk, scalarOf d = some pk := by
  cases d with
  | seq l => simp [Doc.hashable] at h
  | map m => simp [Doc.hashable] at h
  | str s => exact ⟨_, rfl⟩
  | int n => exact ⟨_, rfl⟩
  | bool b => exact ⟨_, rfl⟩
  | null => exact ⟨_, rfl⟩

/-- The union of two element lists is duplicate-free. -/
theorem unionElems_nodup (l1 l2 : List Doc) : (unionElems l1 l2).Nodup :=
  (List.nodup_dedup _).map keyDoc_injective

/-- For hashable elements, membership in the union is membership in either
operand. -/
theorem unionElems_mem {l1 l2 : List Doc}
    (hhash : (l1 ++ l2).all Doc.hashable = true) (x : Doc) :
    x ∈ unionElems l1 l2 ↔ (x ∈ l1 ∨ x ∈ l2) := by
  unfold unionElems
  constructor
  · intro hx
    obtain ⟨pk, hpk, rfl⟩ := List.mem_map.mp hx
    have hpk' : pk ∈ (l1 ++ l2).filterMap scalarOf := (List.mem_dedup).mp hpk
    obtain ⟨d, hd, hsd⟩ := List.mem_filterMap.mp hpk'
    rw [scalarOf_keyDoc hsd]
    exact List.mem_append.mp hd
  · intro hx
    have hd : x ∈ l1 ++ l2 := List.mem_append.mpr hx
    have hh : x.hashable = true := by
      have hall := List.all_eq_true.mp hhash
      simpa using hall x hd
    obtain ⟨pk, hpk⟩ := hashable_scalarOf hh
    have hf : pk ∈ (l1 ++ l2).filterMap scalarOf :=
      List.mem_filterMap.mpr ⟨x, hd, hpk⟩
    have h2 : pk ∈ ((l1 ++ l2).filterMap scalarOf).dedup := (List.mem_dedup).mpr hf
    have h3 := List.mem_map_of_mem keyDoc h2
    rwa [scalarOf_keyDoc hpk] at h3

/-- C4: for a union key present as a sequence in both mappings, a successful
`deep_merge` carries at that key a sequence whose element set is exactly the
union of the two operands' elements, with no duplicates. -/
theorem union_key_set_union (A B R : Entries) (k : PKey) (l1 l2 : List Doc)
    (hA : List.lookup k A = some (Doc.seq l1))
    (hB : List.lookup k B = some (Doc.seq l2))
    (hk : keyInSet k UNION_KEYS = true)
    (hmerge : deep_merge A B = Except.ok R) :
    ∃ l : List Doc, List.lookup k R = some (Doc.seq l) ∧ l.Nodup ∧
      ∀ x, x ∈ l ↔ (x ∈ l1 ∨ x ∈ l2) := by
  rw [deep_merge_unfold] at hmerge
  cases hme : mergeEntries (mergeValue (dmN (dsizeE A + dsizeE B))) B A with
  | error e => rw [hme, exc_map_error] at hmerge; exact absurd hmerge (by simp)
  | ok merged =>
    rw [hme, exc_map_ok] at hmerge
    have hR : R = merged ++ B.filter (fun q => (List.lookup q.1 A).isNone) := by
      cases hmerge with
      | refl => rfl
    subst hR
    obtain ⟨v, hv1, hv2⟩ := mergeEntries_lookup hme hA
    rw [hB] at hv1
    simp only [mergeValue] at hv1
    rw [if_pos hk] at hv1
    cases hhash : (l1 ++ l2).all Doc.hashable with
    | false => rw [hhash] at hv1; simp at hv1
    | true =>
      rw [hhash] at hv1
      simp only [if_true] at hv1
      have hv : v = Doc.seq (unionElems l1 l2) := by
        cases hv1 with
        | refl => rfl
      subst hv
      exact ⟨unionElems l1 l2, lookup_append_some hv2, unionElems_nodup l1 l2,
        unionElems_mem hhash⟩

/-- C4 witness: the spec's example, `networks: [x, y]` merged with
`networks: [y, z]`. -/
theorem union_key_set_union_witness :
    ∃ l : List Doc,
      List.lookup (PKey.s "networks")
        [(PKey.s "networks", Doc.seq [Doc.str "x", Doc.str "y", Doc.str "z"])] =
        some (Doc.seq l) ∧ l.Nodup ∧
      ∀ x, x ∈ l ↔ (x ∈ [Doc.str "x", Doc.str "y"] ∨ x ∈ [Doc.str "y", Doc.str "z"]) :=
  union_key_set_union
    [(PKey.s "networks", Doc.seq [Doc.str "x", Doc.str "y"])]
    [(PKey.s "networks", Doc.seq [Doc.str "y", Doc.str "z"])]
    [(PKey.s "networks", Doc.seq [Doc.str "x", Doc.str "y", Doc.str "z"])]
    (PKey.s "networks") [Doc.str "x", Doc.str "y"] [Doc.str "y", Doc.str "z"]
    rfl rfl rfl rfl

/-- All values of a mapping are scalars. -/
def allScalar (l : Entries) : Prop := ∀ p ∈ l, Doc.isScalar p.2 = true

/-- Closed form of the merge of mappings whose base values are scalars:
base entries take the overlay's value when the key is shared, and
overlay-only entries are appended. -/
def flatMerge (a b : Entries) : Entries :=
  a.map (fun p => (p.1, (List.lookup p.1 b).getD p.2)) ++
    b.filter (fun q => (List.lookup q.1 a).isNone)

/-- A scalar base value is always replaced wholesale by the overlay value. -/
theorem mergeValue_scalar (dm : Entries → Entries → Except RErr Entries)
    (k : PKey) {b : Doc} (hb : b.isScalar = true) (v : Doc) :
    mergeValue dm k b v = Except.ok v := by
  cases b <;> simp [Doc.isScalar] at hb <;> simp [mergeValue]

/-- A found lookup points at an entry of the list. -/
theorem lookup_mem {l : Entries} {k : PKey} {v : Doc}
    (h : List.lookup k l = some v) : (k, v) ∈ l := by
  induction l with
  | nil => simp [List.lookup] at h
  | cons p t ih =>
    cases hk : (k == p.1) with
    | true =>
      have hkk : k = p.1 := by simpa using hk
      have hv : v = p.2 := by
        rw [List.lookup] at h
        rw [hk] at h
        simpa using h.symm
      subst hkk
      subst hv
      exact List.mem_cons_self _ _
    | false =>
      rw [List.lookup, hk] at h
      exact List.mem_cons_of_mem _ (ih h)

/-- The merge pass over a scalar-valued base computes pointwise overlay
preference, for any value merger that replaces scalar bases. -/
theorem mergeEntries_scalar {f : PKey → Doc → Doc → Except RErr Doc}
    (hf : ∀ k b v, b.isScalar = true → f k b v = Except.ok v)
    (ov : Entries) :
    ∀ {l : Entries}, allScalar l →
    mergeEntries f ov l =
      Except.ok (l.map (fun p => (p.1, (List.lookup p.1 ov).getD p.2))) := by
  intro l hl
  induction l with
  | nil => rfl
  | cons p t ih =>
    obtain ⟨k, b⟩ := p
    have hb : Doc.isScalar b = true := hl (k, b) (List.mem_cons_self _ _)
    have ht : allScalar t := fun q hq => hl q (List.mem_cons_of_mem _ hq)
    rw [mergeEntries]
    cases hov : List.lookup k ov with
    | none =>
      rw [exc_bind_ok, ih ht, exc_map_ok]
      simp [hov]
    | some v =>
      have hred : (match (some v : Option Doc) with
          | none => Except.ok b
          | some w => f k b w) = f k b v := rfl
      rw [hred, hf k b v hb, exc_bind_ok, ih ht, exc_map_ok]
      simp [hov]

/-- On a scalar-valued base the deep merge succeeds and equals the closed
form `flatMerge`. -/
theorem deep_merge_flat {a : Entries} (b : Entries) (ha : allScalar a) :
    deep_merge a b = Except.ok (flatMerge a b) := by
  rw [deep_merge_unfold]
  rw [mergeEntries_scalar
    (fun k bb v hbb => mergeValue_scalar (dmN (dsizeE a + dsizeE b)) k hbb v) b ha]
  rw [exc_map_ok]
  rfl

/-- Merged scalar mappings stay scalar-valued. -/
theorem allScalar_flatMerge {a b : Entries} (ha : allScalar a) (hb : allScalar b) :
    allScalar (flatMerge a b) := by
  intro p hp
  rcases List.mem_append.mp hp with hp1 | hp2
  · obtain ⟨q, hq, rfl⟩ := List.mem_map.mp hp1
    cases hov : List.lookup q.1 b with
    | none => simpa [hov] using ha q hq
    | some v =>
      have hvb : (q.1, v) ∈ b := lookup_mem hov
      simpa [hov] using hb (q.1, v) hvb
  · exact hb p (List.mem_of_mem_filter hp2)

/-- Unfolded shape of `flatMerge`. -/
theorem flatMerge_eq (a b : Entries) : flatMerge a b =
    a.map (fun p => (p.1, (List.lookup p.1 b).getD p.2)) ++
      b.filter (fun q => (List.lookup q.1 a).isNone) := rfl

/-- Lookup through the overlay-preferring map of `flatMerge`. -/
theorem lookup_mapOverlay (b l : Entries) (k : PKey) :
    List.lookup k (l.map (fun p => (p.1, (List.lookup p.1 b).getD p.2))) =
      (List.lookup k l).map (fun v => (List.lookup k b).getD v) := by
  induction l with
  | nil => rfl
  | cons p t ih =>
    obtain ⟨k', v'⟩ := p
    cases hk : (k == k') with
    | true =>
      have hkk : k = k' := by simpa using hk
      subst hkk
      simp [List.lookup]
    | false => simp [List.lookup, hk, ih]

/-- Lookup in an appended list falls through to the right part when the
left part misses. -/
theorem lookup_append_right {l1 : Entries} {k : PKey}
    (h : List.lookup k l1 = none) (l2 : Entries) :
    List.lookup k (l1 ++ l2) = List.lookup k l2 := by
  induction l1 with
  | nil => rfl
  | cons p t ih =>
    cases hk : (k == p.1) with
    | true => rw [List.lookup, hk] at h; simp at h
    | false =>
      rw [List.lookup, hk] at h
      rw [List.cons_append, List.lookup, hk]
      exact ih h

/-- Filtering on overlay-only keys is invisible to a key the base misses. -/
theorem lookup_filter_none_key {A : Entries} {k : PKey}
    (h : List.lookup k A = none) (l : Entries) :
    List.lookup k (l.filter (fun q => (List.lookup q.1 A).isNone)) =
      List.lookup k l := by
  induction l with
  | nil => rfl
  | cons p t ih =>
    obtain ⟨k', v'⟩ := p
    rw [List.filter_cons]
    cases hk : (k == k') with
    | true =>
      have hkk : k = k' := by simpa using hk
      subst hkk
      rw [if_pos (by simp [h])]
      simp [List.lookup]
    | false =>
      by_cases hc : ((List.lookup k' A).isNone : Bool) = true
      · rw [if_pos (by simpa using hc)]
        rw [List.lookup, hk, ih, List.lookup, hk]
      · rw [if_neg (by simpa using hc), ih, List.lookup, hk]

/-- Lookup through a `flatMerge`: a key of the base reads the overlay's
value if present (else the base's), a key absent from the base reads the
overlay. -/
theorem lookup_flatMerge (a b : Entries) (k : PKey) :
    List.lookup k (flatMerge a b) =
      match List.lookup k a with
      | some v => some ((List.lookup k b).getD v)
      | none => List.lookup k b := by
  rw [flatMerge_eq]
  cases hla : List.lookup k a with
  | some v =>
    have hm : List.lookup k (a.map (fun p => (p.1, (List.lookup p.1 b).getD p.2))) =
        some ((List.lookup k b).getD v) := by
      rw [lookup_mapOverlay, hla]; rfl
    exact lookup_append_some hm
  | none =>
    have hm : List.lookup k (a.map (fun p => (p.1, (List.lookup p.1 b).getD p.2))) =
        none := by
      rw [lookup_mapOverlay, hla]; rfl
    rw [lookup_append_right hm, lookup_filter_none_key hla]

/-- Filtering against a `flatMerge` accumulation filters against both
operands. -/
theorem filter_flatMerge (A B C : Entries) :
    C.filter (fun q => (List.lookup q.1 (flatMerge A B)).isNone) =
      (C.filter (fun q => (List.lookup q.1 B).isNone)).filter
        (fun q => (List.lookup q.1 A).isNone) := by
  induction C with
  | nil => rfl
  | cons p t ih =>
    have hp : ((List.lookup p.1 (flatMerge A B)).isNone : Bool) =
        ((List.lookup p.1 A).isNone && (List.lookup p.1 B).isNone) := by
      rw [lookup_flatMerge]
      cases ha : List.lookup p.1 A <;> cases hb : List.lookup p.1 B <;> simp
    cases hA : ((List.lookup p.1 A).isNone : Bool) <;>
      cases hB : ((List.lookup p.1 B).isNone : Bool) <;>
        simp [List.filter_cons, hp, hA, hB, ih]

/-- Mapping overlay preference through an accumulated `flatMerge` is the
composition of the two single-overlay maps. -/
theorem map_map_flat (B C A : Entries) :
    A.map (fun p => (p.1, (List.lookup p.1 (flatMerge B C)).getD p.2)) =
      (A.map (fun p => (p.1, (List.lookup p.1 B).getD p.2))).map
        (fun p => (p.1, (List.lookup p.1 C).getD p.2)) := by
  rw [List.map_map]
  congr 1
  funext p
  simp only [Function.comp]
  rw [lookup_flatMerge]
  cases hb : List.lookup p.1 B <;> cases hc : List.lookup p.1 C <;> simp

/-- Filtering on base-absent keys commutes with the overlay-preferring map
(the map preserves keys). -/
theorem filter_map_comm (A C B : Entries) :
    (B.filter (fun q => (List.lookup q.1 A).isNone)).map
      (fun p => (p.1, (List.lookup p.1 C).getD p.2)) =
    (B.map (fun p => (p.1, (List.lookup p.1 C).getD p.2))).filter
      (fun q => (List.lookup q.1 A).isNone) := by
  induction B with
  | nil => rfl
  | cons p t ih =>
    cases hA : ((List.lookup p.1 A).isNone : Bool) <;>
      simp [List.filter_cons, hA, ih]

/-- The closed-form flat merge is associative. -/
theorem flatMerge_assoc (A B C : Entries) :
    flatMerge (flatMerge A B) C = flatMerge A (flatMerge B C) := by
  rw [flatMerge_eq (flatMerge A B) C, flatMerge_eq A (flatMerge B C)]
  rw [filter_flatMerge A B C, map_map_flat B C A]
  rw [flatMerge_eq A B, flatMerge_eq B C]
  rw [List.map_append, List.filter_append, filter_map_comm A C B,
    List.append_assoc]

/-- C1 (amended): `deep_merge` is associative in application order on
mappings all of whose values are scalars; the unrestricted statement fails,
see `deep_merge_not_associative`. -/
theorem deep_merge_assoc_scalar (A B C : Entries)
    (hA : allScalar A) (hB : allScalar B) (_hC : allScalar C) :
    (deep_merge A B).bind (fun ab => deep_merge ab C) =
    (deep_merge B C).bind (fun bc => deep_merge A bc) := by
  rw [deep_merge_flat B hA, exc_bind_ok, deep_merge_flat C hB, exc_bind_ok,
    deep_merge_flat C (allScalar_flatMerge hA hB),
    deep_merge_flat (flatMerge B C) hA, flatMerge_assoc]

/-- C1 amended witness: three concrete flat scalar mappings. -/
theorem deep_merge_assoc_scalar_witness :
    (deep_merge [(PKey.s "a", Doc.int 1)] [(PKey.s "b", Doc.int 2)]).bind
      (fun ab => deep_merge ab [(PKey.s "a", Doc.int 3)]) =
    (deep_merge [(PKey.s "b", Doc.int 2)] [(PKey.s "a", Doc.int 3)]).bind
      (fun bc => deep_merge [(PKey.s "a", Doc.int 1)] bc) :=
  deep_merge_assoc_scalar [(PKey.s "a", Doc.int 1)] [(PKey.s "b", Doc.int 2)]
    [(PKey.s "a", Doc.int 3)]
    (by intro p hp; simp only [List.mem_singleton] at hp; subst hp; rfl)
    (by intro p hp; simp only [List.mem_singleton] at hp; subst hp; rfl)
    (by intro p hp; simp only [List.mem_singleton] at hp; subst hp; rfl)

/-- Normalized mapping shape: every key is a string key and every value a
string value. -/
def normForm (l : Entries) : Prop :=
  ∀ p ∈ l, (∃ s, p.1 = PKey.s s) ∧ (∃ s, p.2 = Doc.str s)

/-- The output of mapping normalization is in normalized shape. -/
theorem normEntries_normForm (m : Entries) : normForm (normEntries m) := by
  intro p hp
  obtain ⟨q, _, rfl⟩ := List.mem_map.mp hp
  exact ⟨⟨_, rfl⟩, ⟨_, rfl⟩⟩

/-- Normalized mappings are scalar-valued. -/
theorem normForm_allScalar {l : Entries} (h : normForm l) : allScalar l := by
  intro p hp
  obtain ⟨_, s, hs⟩ := h p hp
  rw [hs]; rfl

/-- The flat merge of normalized mappings is normalized. -/
theorem flatMerge_normForm {a b : Entries} (ha : normForm a) (hb : normForm b) :
    normForm (flatMerge a b) := by
  intro p hp
  rcases List.mem_append.mp hp with h1 | h2
  · obtain ⟨q, hq, rfl⟩ := List.mem_map.mp h1
    refine ⟨(ha q hq).1, ?_⟩
    cases hov : List.lookup q.1 b with
    | none => simpa [hov] using (ha q hq).2
    | some v =>
      have hv := (hb (q.1, v) (lookup_mem hov)).2
      simpa [hov] using hv
  · exact hb p (List.mem_of_mem_filter h2)

/-- Merging two normalized mappings succeeds at every fuel and stays
normalized (the values are strings, so the merge never recurses). -/
theorem dmN_normForm (n : Nat) {a b : Entries} (ha : normForm a) (hb : normForm b) :
    ∃ r, dmN n a b = Except.ok r ∧ normForm r := by
  cases n with
  | zero => exact ⟨a, rfl, ha⟩
  | succ n =>
    rw [dmN]
    rw [mergeEntries_scalar (fun k bb v hbb => mergeValue_scalar (dmN n) k hbb v) b
      (normForm_allScalar ha), exc_map_ok]
    exact ⟨_, rfl, flatMerge_normForm ha hb⟩

/-- C9: when `deep_merge` merges two mapping values under `environment` or
`labels`, every key of the merged mapping is a string key and every value a
string — normalization coerces both sides with `str()`. -/
theorem env_labels_merge_strings (A B R : Entries) (k : PKey) (m1 m2 : Entries)
    (hA : List.lookup k A = some (Doc.map m1))
    (hB : List.lookup k B = some (Doc.map m2))
    (hk : keyInSet k ["environment", "labels"] = true)
    (hmerge : deep_merge A B = Except.ok R) :
    ∃ r, List.lookup k R = some (Doc.map r) ∧ normForm r := by
  rw [deep_merge_unfold] at hmerge
  cases hme : mergeEntries (mergeValue (dmN (dsizeE A + dsizeE B))) B A with
  | error e => rw [hme, exc_map_error] at hmerge; exact absurd hmerge (by simp)
  | ok merged =>
    rw [hme, exc_map_ok] at hmerge
    have hR : R = merged ++ B.filter (fun q => (List.lookup q.1 A).isNone) := by
      cases hmerge with
      | refl => rfl
    subst hR
    obtain ⟨v, hv1, hv2⟩ := mergeEntries_lookup hme hA
    rw [hB] at hv1
    simp only [mergeValue] at hv1
    rw [if_pos hk] at hv1
    obtain ⟨r, hr, hnf⟩ := dmN_normForm (dsizeE A + dsizeE B)
      (normEntries_normForm m1) (normEntries_normForm m2)
    rw [hr, exc_map_ok] at hv1
    have hv : v = Doc.map r := by
      cases hv1 with
      | refl => rfl
    subst hv
    exact ⟨r, lookup_append_some hv2, hnf⟩

/-- C9 witness: merging `environment: {A: 1}` with `environment: {B: 2}`
yields string keys and values. -/
theorem env_labels_merge_strings_witness :
    ∃ r, List.lookup (PKey.s "environment")
        [(PKey.s "environment",
          Doc.map [(PKey.s "A", Doc.str "1"), (PKey.s "B", Doc.str "2")])] =
        some (Doc.map r) ∧ normForm r :=
  env_labels_merge_strings
    [(PKey.s "environment", Doc.map [(PKey.s "A", Doc.int 1)])]
    [(PKey.s "environment", Doc.map [(PKey.s "B", Doc.int 2)])]
    [(PKey.s "environment", Doc.map [(PKey.s "A", Doc.str "1"), (PKey.s "B", Doc.str "2")])]
    (PKey.s "environment")
    [(PKey.s "A", Doc.int 1)] [(PKey.s "B", Doc.int 2)]
    rfl rfl rfl rfl

/-- The scanner returns its input unchanged on an empty text. -/
theorem iGo_nil (vars : Entries) (n : Nat) : iGo vars n [] = Except.ok [] := by
  cases n <;> rfl

/-- No placeholders are found in an empty text. -/
theorem phN_nil (n : Nat) : phN n [] = [] := by
  cases n <;> rfl

/-- One step of the scan: either a placeholder `${w}` is matched at the
current position (and both the placeholder list and the substitution
consume it), or one character passes through unchanged. -/
theorem scan_step (vars : Entries) (n : Nat) (c : Char) (cs : List Char) :
    (∃ w rs, phN (n+1) (c :: cs) = String.mk w :: phN n rs ∧
      iGo vars (n+1) (c :: cs) =
        (match varLookup vars (String.mk w) with
         | none => Except.error (.missingVariable (String.mk w))
         | some v => (iGo vars n rs).map (fun out => (pyStr v).data ++ out))) ∨
    (phN (n+1) (c :: cs) = phN n cs ∧
      iGo vars (n+1) (c :: cs) = (iGo vars n cs).map (fun out => c :: out)) := by
  by_cases hc : c = '$'
  · subst hc
    cases cs with
    | nil =>
      right
      refine ⟨by simp [phN, phN_nil], ?_⟩
      rw [iGo_nil]
      simp [iGo]
    | cons c2 cs2 =>
      by_cases h2 : c2 = braceL
      · subst h2
        cases hdw : cs2.dropWhile isWordChar with
        | nil =>
          right
          constructor <;> simp [phN, iGo, hdw]
        | cons r rs =>
          by_cases hcond : r = braceR ∧ cs2.takeWhile isWordChar ≠ []
          · left
            exact ⟨cs2.takeWhile isWordChar, rs,
              by simp [phN, hdw, hcond],
              by simp [iGo, hdw, hcond]⟩
          · right
            constructor <;> simp [phN, iGo, hdw, hcond] <;> simp_all
      · right
        constructor <;> simp [phN, iGo, h2]
  · right
    constructor <;> simp [phN, iGo, hc]

/-- When every found placeholder resolves, the scan succeeds. -/
theorem iGo_total (vars : Entries) :
    ∀ n cs, (∀ w ∈ phN n cs, (varLookup vars w).isSome) →
    ∃ out, iGo vars n cs = Except.ok out := by
  intro n
  induction n with
  | zero => intro cs _; exact ⟨cs, rfl⟩
  | succ n ih =>
    intro cs hall
    cases cs with
    | nil => exact ⟨[], rfl⟩
    | cons c cs' =>
      rcases scan_step vars n c cs' with ⟨w, rs, hph, higo⟩ | ⟨hph, higo⟩
      · rw [higo]
        have hw : (varLookup vars (String.mk w)).isSome := by
          apply hall
          rw [hph]
          exact List.mem_cons_self _ _
        cases hv : varLookup vars (String.mk w) with
        | none => rw [hv] at hw; simp at hw
        | some v =>
          obtain ⟨out, hout⟩ := ih rs
            (fun w' hw' => hall w' (by rw [hph]; exact List.mem_cons_of_mem _ hw'))
          refine ⟨(pyStr v).data ++ out, ?_⟩
          simp only [hv]
          rw [hout, exc_map_ok]
      · rw [higo]
        obtain ⟨out, hout⟩ := ih cs' (fun w' hw' => hall w' (by rw [hph]; exact hw'))
        exact ⟨c :: out, by rw [hout, exc_map_ok]⟩

/-- When some found placeholder does not resolve, the scan fails with a
missing-variable error naming an unresolved identifier. -/
theorem iGo_missing (vars : Entries) :
    ∀ n cs, (∃ w ∈ phN n cs, varLookup vars w = none) →
    ∃ w, w ∈ phN n cs ∧ varLookup vars w = none ∧
      iGo vars n cs = Except.error (RErr.missingVariable w) := by
  intro n
  induction n with
  | zero =>
    rintro cs ⟨w, hw, _⟩
    simp [phN] at hw
  | succ n ih =>
    rintro cs ⟨w0, hw0, hn0⟩
    cases cs with
    | nil => rw [phN_nil] at hw0; simp at hw0
    | cons c cs' =>
      rcases scan_step vars n c cs' with ⟨w, rs, hph, higo⟩ | ⟨hph, higo⟩
      · cases hv : varLookup vars (String.mk w) with
        | none =>
          refine ⟨String.mk w, by rw [hph]; exact List.mem_cons_self _ _, hv, ?_⟩
          rw [higo]
          simp [hv]
        | some v =>
          have hex : ∃ w' ∈ phN n rs, varLookup vars w' = none := by
            rw [hph] at hw0
            rcases List.mem_cons.mp hw0 with h | h
            · subst h; rw [hv] at hn0; cases hn0
            · exact ⟨w0, h, hn0⟩
          obtain ⟨w', hw', hn', herr⟩ := ih rs hex
          refine ⟨w', by rw [hph]; exact List.mem_cons_of_mem _ hw', hn', ?_⟩
          rw [higo]
          simp only [hv]
          rw [herr, exc_map_error]
      · have hex : ∃ w' ∈ phN n cs', varLookup vars w' = none :=
          ⟨w0, by rwa [hph] at hw0, hn0⟩
        obtain ⟨w', hw', hn', herr⟩ := ih cs' hex
        exact ⟨w', by rwa [hph], hn', by rw [higo, herr, exc_map_error]⟩

/-- A text in which the scanner finds no placeholder passes through
unchanged. -/
theorem iGo_no_placeholder (vars : Entries) :
    ∀ n cs, phN n cs = [] → iGo vars n cs = Except.ok cs := by
  intro n
  induction n with
  | zero => intro cs _; rfl
  | succ n ih =>
    intro cs hph
    cases cs with
    | nil => rfl
    | cons c cs' =>
      rcases scan_step vars n c cs' with ⟨w, rs, hph', _⟩ | ⟨hph', higo⟩
      · rw [hph'] at hph; cases hph
      · rw [hph'] at hph
        rw [higo, ih cs' hph, exc_map_ok]

/-- C7: `interpolate` fails with a missing-variable error naming an
unresolved identifier whenever the template contains a placeholder whose
identifier is absent from the variables (never substituting a blank); when
every placeholder identifier is present it succeeds, and on the spec's
example it substitutes the stringified values. -/
theorem interpolate_missing_variable :
    (∀ t vars, (∃ p ∈ placeholders t, varLookup vars p = none) →
      ∃ p, p ∈ placeholders t ∧ varLookup vars p = none ∧
        interpolate t vars = Except.error (RErr.missingVariable p)) ∧
    (∀ t vars, (∀ p ∈ placeholders t, (varLookup vars p).isSome) →
      ∃ out, interpolate t vars = Except.ok out) ∧
    interpolate "${a}-${b}" [(PKey.s "a", Doc.str "1"), (PKey.s "b", Doc.str "2")] =
      Except.ok "1-2" := by
  refine ⟨?_, ?_, rfl⟩
  · intro t vars hex
    unfold placeholders at hex
    obtain ⟨w, hw, hn, herr⟩ := iGo_missing vars (t.data.length + 1) t.data hex
    refine ⟨w, ?_, hn, ?_⟩
    · unfold placeholders
      exact hw
    · unfold interpolate
      rw [herr, exc_map_error]
  · intro t vars hall
    unfold placeholders at hall
    obtain ⟨out, hout⟩ := iGo_total vars (t.data.length + 1) t.data hall
    exact ⟨String.mk out, by unfold interpolate; rw [hout, exc_map_ok]⟩

/-- C7 witness: `interpolate("${missing}", {})` fails with MissingVariable
naming `missing`. -/
theorem interpolate_missing_variable_witness :
    ∃ p, p ∈ placeholders "${missing}" ∧ varLookup [] p = none ∧
      interpolate "${missing}" [] = Except.error (RErr.missingVariable p) :=
  interpolate_missing_variable.1 "${missing}" []
    ⟨"missing", by decide, rfl⟩

/-- C8 counterexample: the placeholder identifier class is not limited to
`[A-Za-z0-9_]`.  For the template `"${é}"` — a `${...}` whose brace content
lies outside `[A-Za-z0-9_]` — the regex `\w` (Unicode word class) matches
`é` (code point 233), so the code raises a missing-variable failure instead
of passing the text through unchanged. -/
theorem unicode_placeholder_not_passed_through :
    interpolate (String.mk ['$', braceL, Char.ofNat 233, braceR]) [] =
      Except.error (RErr.missingVariable (String.mk [Char.ofNat 233])) := rfl

/-- C8 (amended): the scanner treats as placeholders exactly the `${word}`
substrings with a nonempty word of regex `\w` characters — Unicode
alphanumerics or underscore, a strict superset of `[A-Za-z0-9_]`: a
template in which it finds none passes through unchanged with no
missing-variable failure, a lone `$` and a `${...}` whose brace content
contains a non-word character pass through verbatim, an exact-form
placeholder is substituted with the surrounding text unchanged, and a
placeholder whose identifier is a non-ASCII word character is substituted
too. -/
theorem interpolate_placeholder_shape :
    (∀ t vars, placeholders t = [] → interpolate t vars = Except.ok t) ∧
    interpolate "$x" [] = Except.ok "$x" ∧
    interpolate "${a-b}" [] = Except.ok "${a-b}" ∧
    interpolate "a-${b_9}-c" [(PKey.s "b_9", Doc.int 7)] = Except.ok "a-7-c" ∧
    interpolate (String.mk ['$', braceL, Char.ofNat 233, braceR])
      [(PKey.s (String.mk [Char.ofNat 233]), Doc.str "X")] = Except.ok "X" := by
  refine ⟨?_, rfl, rfl, rfl, rfl⟩
  intro t vars h
  unfold placeholders at h
  unfold interpolate
  rw [iGo_no_placeholder vars _ _ h, exc_map_ok]

/-- C8 witness: text with a `$` not followed by a brace passes through. -/
theorem interpolate_placeholder_shape_witness :
    interpolate "plain $ text" [] = Except.ok "plain $ text" :=
  interpolate_placeholder_shape.1 "plain $ text" [] (by decide)

/-
Heap-level embedding of `deep_merge`, used to settle the frame claim that
the merge never mutates its inputs.  Python objects live in a heap of
nodes addressed by allocation order; scalars are immutable leaves, lists
and dicts hold addresses of their children.  `deep_merge` is re-embedded
at this level with the source's mutation pattern made explicit:
`result = deepcopy(base)` allocates a fresh copy, and every assignment
`result[key] = ...` writes only to that fresh region.
-/

/-- Heap node: a Python object. -/
inductive HVal where
  | scalar (s : PKey)
  | seq (elems : List Nat)
  | map (entries : List (PKey × Nat))
deriving DecidableEq

/-- Heap of allocated objects, addressed by position. -/
structure Heap where
  nodes : List HVal
deriving DecidableEq

/-- Read the object at an address. -/
def hread (h : Heap) (a : Nat) : Option HVal := h.nodes[a]?

/-- Allocate a fresh object, returning its address. -/
def halloc (h : Heap) (v : HVal) : Heap × Nat :=
  (⟨h.nodes ++ [v]⟩, h.nodes.length)

/-- Overwrite the object at an address (in-place mutation). -/
def hwrite (h : Heap) (a : Nat) (v : HVal) : Heap := ⟨h.nodes.set a v⟩

/-- Addresses referenced by a node. -/
def refs : HVal → List Nat
  | .scalar _ => []
  | .seq elems => elems
  | .map entries => entries.map (fun p => p.2)

/-- Every node of the heap references only addresses below `n`. -/
def closedBelow (h : Heap) (n : Nat) : Prop :=
  ∀ v ∈ h.nodes, ∀ a ∈ refs v, a < n

/-- Read back the document rooted at an address (fuelled; dangling
addresses and exhausted fuel read as null, which closed heaps with enough
fuel never hit). -/
def readDoc : Nat → Heap → Nat → Doc
  | 0, _, _ => Doc.null
  | n+1, h, a =>
    match hread h a with
    | none => Doc.null
    | some (.scalar (PKey.s s)) => Doc.str s
    | some (.scalar (PKey.i i)) => Doc.int i
    | some (.scalar (PKey.b b)) => Doc.bool b
    | some (.scalar PKey.null) => Doc.null
    | some (.seq elems) => Doc.seq (elems.map (readDoc n h))
    | some (.map entries) => Doc.map (entries.map (fun p => (p.1, readDoc n h p.2)))

/-- Python's `copy.deepcopy`: recursively copy the object graph into fresh
nodes, never writing to existing ones. -/
def hcopy : Nat → Heap → Nat → Heap × Nat
  | 0, h, _ => halloc h (.scalar .null)
  | n+1, h, a =>
    match hread h a with
    | none => halloc h (.scalar .null)
    | some (.scalar s) => halloc h (.scalar s)
    | some (.seq elems) =>
      let r := elems.foldl (fun (acc : Heap × List Nat) e =>
        let he := hcopy n acc.1 e
        (he.1, acc.2 ++ [he.2])) (h, [])
      halloc r.1 (.seq r.2)
    | some (.map entries) =>
      let r := entries.foldl (fun (acc : Heap × List (PKey × Nat)) p =>
        let hp := hcopy n acc.1 p.2
        (hp.1, acc.2 ++ [(p.1, hp.2)])) (h, [])
      halloc r.1 (.map r.2)

/-- Dict assignment on an address list (`result[key] = v`). -/
def setKeyA : List (PKey × Nat) → PKey → Nat → List (PKey × Nat)
  | [], k, v => [(k, v)]
  | (k', v') :: t, k, v =>
    if k' = k then (k, v) :: t else (k', v') :: setKeyA t k v

/-- In-place `result[key] = v` on the dict node at `a`. -/
def hsetKey (h : Heap) (a : Nat) (key : PKey) (v : Nat) : Heap :=
  match hread h a with
  | some (.map entries) => hwrite h a (.map (setKeyA entries key v))
  | _ => h

/-- Heap-level `normalize_to_dict` on a dict node: build a fresh mapping of
stringified keys and freshly allocated stringified values (the only case
`deep_merge` reaches). -/
def hnormalize (n : Nat) (h : Heap) (a : Nat) : Heap × Nat :=
  match hread h a with
  | some (.map entries) =>
    let r := entries.foldl (fun (acc : Heap × List (PKey × Nat)) p =>
      let hs := halloc acc.1 (.scalar (PKey.s (pyStr (readDoc n acc.1 p.2))))
      (hs.1, acc.2 ++ [(PKey.s (pyKeyStr p.1), hs.2)])) (h, [])
    halloc r.1 (.map r.2)
  | _ => halloc h (.map [])

/-- Set union of element addresses by scalar value, as `list(set | set)`
(elements are hashable scalars; the result list aliases the first address
holding each value, and Python's unspecified set order is canonicalized). -/
def unionAddrs (h : Heap) (l1 l2 : List Nat) : List Nat :=
  ((l1 ++ l2).foldl (fun (acc : List (HVal × Nat)) e =>
    match hread h e with
    | some v => if acc.any (fun q => q.1 == v) then acc else acc ++ [(v, e)]
    | none => acc) []).map (fun q => q.2)

/-- Heap-level body of one iteration of the merge loop of `deep_merge`,
merging overlay entry `(key, vaddr)` into the fresh dict node `result`. -/
def mergeStepH (n : Nat) (h : Heap) (result : Nat) (key : PKey) (vaddr : Nat)
    (dmh : Heap → Nat → Nat → Heap × Nat) : Heap :=
  match hread h result with
  | some (.map rentries) =>
    match List.lookup key rentries with
    | none =>
      let hc := hcopy n h vaddr
      hsetKey hc.1 result key hc.2
    | some baddr =>
      match hread h baddr, hread h vaddr with
      | some (.map _), some (.map _) =>
        if keyInSet key ["environment", "labels"] then
          let hb := hnormalize n h baddr
          let h2 := hsetKey hb.1 result key hb.2
          let hv := hnormalize n h2 vaddr
          let hm := dmh hv.1 hb.2 hv.2
          hsetKey hm.1 result key hm.2
        else
          let hm := dmh h baddr vaddr
          hsetKey hm.1 result key hm.2
      | some (.seq l1), some (.seq l2) =>
        if keyInSet key UNION_KEYS then
          if ((l1 ++ l2).map (fun e => hread h e)).all
              (fun v => match v with
                | some (.scalar _) => true
                | _ => false) then
            let ha := halloc h (.seq (unionAddrs h l1 l2))
            hsetKey ha.1 result key ha.2
          else h
        else if keyInSet key EXTEND_KEYS then
          let hc := hcopy n h vaddr
          match hread hc.1 hc.2 with
          | some (.seq l2c) =>
            let ha := halloc hc.1 (.seq (l1 ++ l2c))
            hsetKey ha.1 result key ha.2
          | _ => hc.1
        else
          let hc := hcopy n h vaddr
          hsetKey hc.1 result key hc.2
      | _, _ =>
        let hc := hcopy n h vaddr
        hsetKey hc.1 result key hc.2
  | _ => h

/-- Heap-level `deep_merge`: `result = deepcopy(base)`, then fold the merge
step over the overlay's entries, writing only into the fresh copy.  A raise
(union of unhashable elements) and a non-dict overlay leave the heap as it
stands at that point, which also performs no writes to old nodes. -/
def deep_merge_h : Nat → Heap → Nat → Nat → Heap × Nat
  | 0, h, _, _ => halloc h (.map [])
  | n+1, h, base, overlay =>
    let hc := hcopy n h base
    match hread hc.1 overlay with
    | some (.map entries) =>
      (entries.foldl (fun (acc : Heap) p =>
        mergeStepH n acc hc.2 p.1 p.2 (deep_merge_h n)) hc.1, hc.2)
    | _ => (hc.1, hc.2)

example :
    readDoc 5
      (deep_merge_h 5 ⟨[HVal.scalar (PKey.i 1), HVal.scalar (PKey.i 2),
        HVal.map [(PKey.s "a", 0)], HVal.map [(PKey.s "a", 1), (PKey.s "b", 0)]]⟩
        2 3).1
      (deep_merge_h 5 ⟨[HVal.scalar (PKey.i 1), HVal.scalar (PKey.i 2),
        HVal.map [(PKey.s "a", 0)], HVal.map [(PKey.s "a", 1), (PKey.s "b", 0)]]⟩
        2 3).2 =
    Doc.map [(PKey.s "a", Doc.int 2), (PKey.s "b", Doc.int 1)] := rfl

/-- Frame relation: the heap has only grown, and every node below the
baseline `n₀` is untouched. -/
def frameH (n₀ : Nat) (h h' : Heap) : Prop :=
  h.nodes.length ≤ h'.nodes.length ∧
    ∀ i, i < n₀ → h'.nodes[i]? = h.nodes[i]?

/-- The frame relation is reflexive. -/
theorem frameH_refl (n₀ : Nat) (h : Heap) : frameH n₀ h h :=
  ⟨le_refl _, fun _ _ => rfl⟩

/-- The frame relation is transitive. -/
theorem frameH_trans {n₀ : Nat} {h h' h'' : Heap}
    (h1 : frameH n₀ h h') (h2 : frameH n₀ h' h'') : frameH n₀ h h'' :=
  ⟨le_trans h1.1 h2.1, fun i hi => (h2.2 i hi).trans (h1.2 i hi)⟩

/-- Allocation preserves every existing node. -/
theorem halloc_frame {n₀ : Nat} {h : Heap} (hn : n₀ ≤ h.nodes.length)
    (v : HVal) : frameH n₀ h (halloc h v).1 := by
  refine ⟨by simp [halloc], fun i hi => ?_⟩
  show (h.nodes ++ [v])[i]? = h.nodes[i]?
  rw [List.getElem?_append, if_pos (lt_of_lt_of_le hi hn)]

/-- Writing at or above the baseline preserves every node below it. -/
theorem hwrite_frame {n₀ : Nat} (h : Heap) {a : Nat} (ha : n₀ ≤ a) (v : HVal) :
    frameH n₀ h (hwrite h a v) := by
  refine ⟨by simp [hwrite], fun i hi => ?_⟩
  show (h.nodes.set a v)[i]? = h.nodes[i]?
  exact List.getElem?_set_ne (by omega)

/-- Dict assignment at or above the baseline preserves every node below it. -/
theorem hsetKey_frame {n₀ : Nat} (h : Heap) {a : Nat} (ha : n₀ ≤ a)
    (key : PKey) (v : Nat) : frameH n₀ h (hsetKey h a key v) := by
  unfold hsetKey
  cases hr : hread h a with
  | none => exact frameH_refl _ _
  | some w =>
    cases w with
    | scalar s => exact frameH_refl _ _
    | seq l => exact frameH_refl _ _
    | map entries => exact hwrite_frame h ha _

/-- Folding a frame-preserving step over a list preserves the frame
(accumulator carrying a heap and auxiliary data). -/
theorem frameH_foldl {α σ : Type} (n₀ : Nat)
    (step : Heap × σ → α → Heap × σ)
    (hstep : ∀ h s x, n₀ ≤ h.nodes.length → frameH n₀ h (step (h, s) x).1) :
    ∀ (l : List α) (h : Heap) (s : σ), n₀ ≤ h.nodes.length →
      frameH n₀ h (l.foldl step (h, s)).1 := by
  intro l
  induction l with
  | nil => intro h s _; exact frameH_refl _ _
  | cons x t ih =>
    intro h s hn
    rw [List.foldl_cons]
    have h1 := hstep h s x hn
    have h2 := ih (step (h, s) x).1 (step (h, s) x).2
      (le_trans hn h1.1)
    exact frameH_trans h1 h2

/-- Folding a frame-preserving step over a list preserves the frame
(heap-only accumulator). -/
theorem frameH_foldlH {α : Type} {n₀ : Nat}
    (step : Heap → α → Heap)
    (hstep : ∀ h x, n₀ ≤ h.nodes.length → frameH n₀ h (step h x)) :
    ∀ (l : List α) (h : Heap), n₀ ≤ h.nodes.length →
      frameH n₀ h (l.foldl step h) := by
  intro l
  induction l with
  | nil => intro h _; exact frameH_refl _ _
  | cons x t ih =>
    intro h hn
    rw [List.foldl_cons]
    have h1 := hstep h x hn
    exact frameH_trans h1 (ih (step h x) (le_trans hn h1.1))

/-- Deep copy only allocates: every existing node is preserved and the
returned address is fresh. -/
theorem hcopy_frame (n₀ : Nat) :
    ∀ (n : Nat) (h : Heap) (a : Nat), n₀ ≤ h.nodes.length →
      frameH n₀ h (hcopy n h a).1 ∧ h.nodes.length ≤ (hcopy n h a).2 := by
  intro n
  induction n with
  | zero =>
    intro h a hn
    exact ⟨halloc_frame hn _, le_refl _⟩
  | succ n ih =>
    intro h a hn
    rw [hcopy]
    cases hr : hread h a with
    | none => exact ⟨halloc_frame hn _, le_refl _⟩
    | some w =>
      cases w with
      | scalar s => exact ⟨halloc_frame hn _, le_refl _⟩
      | seq elems =>
        have hfold := frameH_foldl n₀
          (fun (acc : Heap × List Nat) e =>
            ((hcopy n acc.1 e).1, acc.2 ++ [(hcopy n acc.1 e).2]))
          (fun h' s x hn' => (ih h' x hn').1) elems h [] hn
        refine ⟨frameH_trans hfold (halloc_frame (le_trans hn hfold.1) _), ?_⟩
        show h.nodes.length ≤
          (elems.foldl (fun (acc : Heap × List Nat) e =>
            let he := hcopy n acc.1 e
            (he.1, acc.2 ++ [he.2])) (h, [])).1.nodes.length
        exact hfold.1
      | map entries =>
        have hfold := frameH_foldl n₀
          (fun (acc : Heap × List (PKey × Nat)) p =>
            ((hcopy n acc.1 p.2).1, acc.2 ++ [(p.1, (hcopy n acc.1 p.2).2)]))
          (fun h' s x hn' => (ih h' x.2 hn').1) entries h [] hn
        refine ⟨frameH_trans hfold (halloc_frame (le_trans hn hfold.1) _), ?_⟩
        show h.nodes.length ≤
          (entries.foldl (fun (acc : Heap × List (PKey × Nat)) p =>
            let hp := hcopy n acc.1 p.2
            (hp.1, acc.2 ++ [(p.1, hp.2)])) (h, [])).1.nodes.length
        exact hfold.1

/-- Normalization only allocates: every existing node is preserved. -/
theorem hnormalize_frame (n₀ : Nat) (n : Nat) (h : Heap) (a : Nat)
    (hn : n₀ ≤ h.nodes.length) : frameH n₀ h (hnormalize n h a).1 := by
  unfold hnormalize
  cases hr : hread h a with
  | none => exact halloc_frame hn _
  | some w =>
    cases w with
    | scalar s => exact halloc_frame hn _
    | seq l => exact halloc_frame hn _
    | map entries =>
      have hfold := frameH_foldl n₀
        (fun (acc : Heap × List (PKey × Nat)) p =>
          ((halloc acc.1 (.scalar (PKey.s (pyStr (readDoc n acc.1 p.2))))).1,
            acc.2 ++ [(PKey.s (pyKeyStr p.1),
              (halloc acc.1 (.scalar (PKey.s (pyStr (readDoc n acc.1 p.2))))).2)]))
        (fun h' s x hn' => halloc_frame hn' _) entries h [] hn
      exact frameH_trans hfold (halloc_frame (le_trans hn hfold.1) _)

/-- One merge step preserves every node below the baseline: it writes only
to the fresh `result` dict and to nodes the recursive merge allocates. -/
theorem mergeStepH_frame {n₀ : Nat} (n : Nat)
    (ihdm : ∀ h b v, n₀ ≤ h.nodes.length →
      frameH n₀ h (deep_merge_h n h b v).1)
    (h : Heap) (result : Nat) (key : PKey) (vaddr : Nat)
    (hn : n₀ ≤ h.nodes.length) (hres : n₀ ≤ result) :
    frameH n₀ h (mergeStepH n h result key vaddr (deep_merge_h n)) := by
  unfold mergeStepH
  split
  · split
    · exact frameH_trans (hcopy_frame n₀ n h vaddr hn).1 (hsetKey_frame _ hres _ _)
    · split
      · rename_i baddr hlook xo1 xo2 m1 m2 hm1 hm2
        split
        · have f1 := hnormalize_frame n₀ n h baddr hn
          have f2 := hsetKey_frame (hnormalize n h baddr).1 hres key
            (hnormalize n h baddr).2
          have f3 := hnormalize_frame n₀ n
            (hsetKey (hnormalize n h baddr).1 result key (hnormalize n h baddr).2)
            vaddr (le_trans hn (le_trans f1.1 f2.1))
          have f4 := ihdm
            (hnormalize n
              (hsetKey (hnormalize n h baddr).1 result key (hnormalize n h baddr).2)
              vaddr).1
            (hnormalize n h baddr).2
            (hnormalize n
              (hsetKey (hnormalize n h baddr).1 result key (hnormalize n h baddr).2)
              vaddr).2
            (le_trans hn (le_trans f1.1 (le_trans f2.1 f3.1)))
          exact frameH_trans f1 (frameH_trans f2 (frameH_trans f3
            (frameH_trans f4 (hsetKey_frame _ hres _ _))))
        · exact frameH_trans (ihdm h baddr vaddr hn) (hsetKey_frame _ hres _ _)
      · rename_i baddr hlook xo1 xo2 l1 l2 hs1 hs2
        split
        · split
          · exact frameH_trans (halloc_frame hn _) (hsetKey_frame _ hres _ _)
          · exact frameH_refl _ _
        · split
          · dsimp only
            split
            · exact frameH_trans (hcopy_frame n₀ n h vaddr hn).1
                (frameH_trans
                  (halloc_frame (le_trans hn ((hcopy_frame n₀ n h vaddr hn).1).1) _)
                  (hsetKey_frame _ hres _ _))
            · exact (hcopy_frame n₀ n h vaddr hn).1
          · exact frameH_trans (hcopy_frame n₀ n h vaddr hn).1 (hsetKey_frame _ hres _ _)
      · exact frameH_trans (hcopy_frame n₀ n h vaddr hn).1 (hsetKey_frame _ hres _ _)
  · exact frameH_refl _ _

/-- The heap-level merge preserves every pre-existing node and returns a
freshly allocated result. -/
theorem deep_merge_h_frame (n₀ : Nat) :
    ∀ (n : Nat) (h : Heap) (b v : Nat), n₀ ≤ h.nodes.length →
      frameH n₀ h (deep_merge_h n h b v).1 ∧
        h.nodes.length ≤ (deep_merge_h n h b v).2 := by
  intro n
  induction n with
  | zero =>
    intro h b v hn
    exact ⟨halloc_frame hn _, le_refl _⟩
  | succ n ih =>
    intro h b v hn
    have hc := hcopy_frame n₀ n h b hn
    have hres : n₀ ≤ (hcopy n h b).2 := le_trans hn hc.2
    cases hr : hread (hcopy n h b).1 v with
    | none =>
      have he : deep_merge_h (n+1) h b v = ((hcopy n h b).1, (hcopy n h b).2) := by
        simp only [deep_merge_h, hr]
      rw [he]
      exact ⟨hc.1, hc.2⟩
    | some w =>
      cases w with
      | scalar s =>
        have he : deep_merge_h (n+1) h b v = ((hcopy n h b).1, (hcopy n h b).2) := by
          simp only [deep_merge_h, hr]
        rw [he]
        exact ⟨hc.1, hc.2⟩
      | seq l =>
        have he : deep_merge_h (n+1) h b v = ((hcopy n h b).1, (hcopy n h b).2) := by
          simp only [deep_merge_h, hr]
        rw [he]
        exact ⟨hc.1, hc.2⟩
      | map entries =>
        have he : deep_merge_h (n+1) h b v =
            (entries.foldl (fun acc p =>
              mergeStepH n acc (hcopy n h b).2 p.1 p.2 (deep_merge_h n))
              (hcopy n h b).1,
             (hcopy n h b).2) := by
          simp only [deep_merge_h, hr]
        rw [he]
        refine ⟨frameH_trans hc.1 ?_, hc.2⟩
        exact frameH_foldlH _
          (fun h' p hn' => mergeStepH_frame n
            (fun hh bb vv hnn => (ih hh bb vv hnn).1)
            h' (hcopy n h b).2 p.1 p.2 hn' hres)
          entries (hcopy n h b).1 (le_trans hn hc.1.1)

/-- Reading a document below the baseline is unchanged by any
frame-preserving heap evolution, on a heap closed below the baseline. -/
theorem readDoc_frame {n₀ : Nat} {h h' : Heap} (hfr : frameH n₀ h h')
    (hcl : closedBelow h n₀) :
    ∀ (fuel a : Nat), a < n₀ → readDoc fuel h' a = readDoc fuel h a := by
  intro fuel
  induction fuel with
  | zero => intro a _; rfl
  | succ fuel ih =>
    intro a ha
    have hra : hread h' a = hread h a := hfr.2 a ha
    cases hv : hread h a with
    | none => simp only [readDoc, hra, hv]
    | some w =>
      have hmem : w ∈ h.nodes := List.getElem?_mem hv
      have hrefs := hcl w hmem
      cases w with
      | scalar s => cases s <;> simp only [readDoc, hra, hv]
      | seq elems =>
        simp only [readDoc, hra, hv]
        congr 1
        apply List.map_congr_left
        intro e he
        exact ih e (hrefs e he)
      | map entries =>
        simp only [readDoc, hra, hv]
        congr 1
        apply List.map_congr_left
        intro p hp
        rw [ih p.2 (hrefs p.2 (List.mem_map_of_mem (fun q => q.2) hp))]

/-- C2: the merge mutates neither input.  On any closed heap, merging the
documents rooted at `a` and `b` leaves every document readable before the
call — in particular both inputs — reading back exactly as before, at every
read depth, and the result is a freshly allocated document. -/
theorem deep_merge_no_mutation (h : Heap) (a b n readFuel : Nat)
    (hcl : closedBelow h h.nodes.length)
    (ha : a < h.nodes.length) (hb : b < h.nodes.length) :
    readDoc readFuel (deep_merge_h n h a b).1 a = readDoc readFuel h a ∧
    readDoc readFuel (deep_merge_h n h a b).1 b = readDoc readFuel h b ∧
    h.nodes.length ≤ (deep_merge_h n h a b).2 := by
  obtain ⟨hfr, haddr⟩ := deep_merge_h_frame h.nodes.length n h a b (le_refl _)
  exact ⟨readDoc_frame hfr hcl readFuel a ha,
    readDoc_frame hfr hcl readFuel b hb, haddr⟩

/-- C2 witness: merging `{a: 1}` (address 2) with `{a: 2, b: 1}` (address 3)
in a concrete four-node heap leaves both inputs reading back unchanged. -/
theorem deep_merge_no_mutation_witness :
    readDoc 5 (deep_merge_h 5 ⟨[HVal.scalar (PKey.i 1), HVal.scalar (PKey.i 2),
        HVal.map [(PKey.s "a", 0)], HVal.map [(PKey.s "a", 1), (PKey.s "b", 0)]]⟩ 2 3).1 2 =
      readDoc 5 ⟨[HVal.scalar (PKey.i 1), HVal.scalar (PKey.i 2),
        HVal.map [(PKey.s "a", 0)], HVal.map [(PKey.s "a", 1), (PKey.s "b", 0)]]⟩ 2 ∧
    readDoc 5 (deep_merge_h 5 ⟨[HVal.scalar (PKey.i 1), HVal.scalar (PKey.i 2),
        HVal.map [(PKey.s "a", 0)], HVal.map [(PKey.s "a", 1), (PKey.s "b", 0)]]⟩ 2 3).1 3 =
      readDoc 5 ⟨[HVal.scalar (PKey.i 1), HVal.scalar (PKey.i 2),
        HVal.map [(PKey.s "a", 0)], HVal.map [(PKey.s "a", 1), (PKey.s "b", 0)]]⟩ 3 ∧
    (⟨[HVal.scalar (PKey.i 1), HVal.scalar (PKey.i 2),
        HVal.map [(PKey.s "a", 0)], HVal.map [(PKey.s "a", 1), (PKey.s "b", 0)]]⟩ : Heap).nodes.length ≤
      (deep_merge_h 5 ⟨[HVal.scalar (PKey.i 1), HVal.scalar (PKey.i 2),
        HVal.map [(PKey.s "a", 0)], HVal.map [(PKey.s "a", 1), (PKey.s "b", 0)]]⟩ 2 3).2 :=
  deep_merge_no_mutation
    ⟨[HVal.scalar (PKey.i 1), HVal.scalar (PKey.i 2),
      HVal.map [(PKey.s "a", 0)], HVal.map [(PKey.s "a", 1), (PKey.s "b", 0)]]⟩
    2 3 5 5
    (by unfold closedBelow; decide)
    (by decide) (by decide)
